import Mathlib

/-!
Shallow embedding of the pack/unpack page engine of `src/src/types.ts`
(a Figma plugin that collapses all non-staging pages of a document into
stacked frames on one staging page, and expands such frames back into
pages), together with theorems checking the repository's specification.

The document model is embedded as an explicit state: the ordered list of
pages, the index of the active page, a fresh-identifier counter standing
for the host's node-identity allocator, and the list of user notifications
emitted so far.  Node identities are explicit `Nat` ids so that cloning
(fresh ids, same structure) and reparenting (ids preserved) are
distinguishable, as they are in the host document model.  Functions that
in the source read the ambient `figma` global instead take the state (or
the data they read from it) as an explicit argument.
-/

/-! ### Decimal rendering (the `${suffix}` template interpolation) -/

/-- Little-endian decimal digits of `n`, with explicit structural fuel
(`fuel ≥ n` suffices, see `decDigits_fuel`). -/
def decDigits : Nat → Nat → List Nat
  | 0, _ => []
  | fuel + 1, n => if n = 0 then [] else n % 10 :: decDigits fuel (n / 10)

/-- Value of a little-endian digit list. -/
def ofDec : List Nat → Nat
  | [] => 0
  | d :: ds => d + 10 * ofDec ds

/-- Decimal rendering of a natural number, as JavaScript template
interpolation renders a number. -/
def natToDec (n : Nat) : String :=
  if n = 0 then "0" else ⟨((decDigits n n).map Nat.digitChar).reverse⟩

/-! ### String trimming (JavaScript `trim()`) -/

/-- Whitespace recognised by the trim operation (the whitespace characters
that can occur in page names: space, tab, newline, carriage return). -/
def isTrimmedWS (c : Char) : Bool := c = ' ' || c = '\t' || c = '\n' || c = '\r'

/-- Embedding of JavaScript `trim()`: drop leading and trailing
whitespace. -/
def strTrim (s : String) : String :=
  ⟨((s.data.dropWhile isTrimmedWS).reverse.dropWhile isTrimmedWS).reverse⟩

/-! ### Nodes -/

/-- A document node: identity, host node type (`"FRAME"` for frames),
name, plugin-data slots, position, height, and top-level children.  Width
and the other host attributes are never read by the engine and are
omitted. -/
inductive Node where
  | mk (id : Nat) (ty : String) (name : String) (pluginData : List (String × String))
      (x y height : Int) (children : List Node)

def Node.id : Node → Nat
  | .mk i _ _ _ _ _ _ _ => i

def Node.ty : Node → String
  | .mk _ t _ _ _ _ _ _ => t

def Node.name : Node → String
  | .mk _ _ nm _ _ _ _ _ => nm

def Node.pluginData : Node → List (String × String)
  | .mk _ _ _ pd _ _ _ _ => pd

def Node.x : Node → Int
  | .mk _ _ _ _ x _ _ _ => x

def Node.y : Node → Int
  | .mk _ _ _ _ _ y _ _ => y

def Node.height : Node → Int
  | .mk _ _ _ _ _ _ h _ => h

def Node.children : Node → List Node
  | .mk _ _ _ _ _ _ _ cs => cs

/-- Embedding of `frame.getPluginData(key)`: the stored string for `key`,
or the empty string when the key was never set. -/
def Node.getPluginData (n : Node) (key : String) : String :=
  match n.pluginData.find? (fun kv => kv.1 = key) with
  | some kv => kv.2
  | none => ""

/-- Repositioning a node, as the assignments `frame.x = nx; frame.y = ny`
do. -/
def Node.setXY : Node → Int → Int → Node
  | .mk i t nm pd _ _ h cs, nx, ny => .mk i t nm pd nx ny h cs

mutual

/-- Embedding of `node.clone()` — an independent copy: fresh identities
throughout the subtree (threaded through the allocator counter), identical
type, name, plugin data, geometry and structure. -/
def cloneNode : Node → Nat → Node × Nat
  | .mk _ ty nm pd x y h cs, c =>
      let r := cloneNodes cs (c + 1)
      (.mk c ty nm pd x y h r.1, r.2)

/-- Clone a list of sibling nodes in order, threading the allocator. -/
def cloneNodes : List Node → Nat → List Node × Nat
  | [], c => ([], c)
  | n :: ns, c =>
      let r := cloneNode n c
      let r2 := cloneNodes ns r.2
      (r.1 :: r2.1, r2.2)

end

mutual

/-- Erase node identities, keeping everything else: two nodes are
structurally equivalent exactly when their stripped forms are equal. -/
def stripNode : Node → Node
  | .mk _ ty nm pd x y h cs => .mk 0 ty nm pd x y h (stripNodes cs)

def stripNodes : List Node → List Node
  | [] => []
  | n :: ns => stripNode n :: stripNodes ns

end

/-- Embedding of `child.remove()` applied inside a page's child list:
remove the (first) node carrying the given identity. -/
def eraseById : List Node → Nat → List Node
  | [], _ => []
  | n :: ns, i => if n.id = i then ns else n :: eraseById ns i

/-- Erase, in order, every listed identity. -/
def eraseManyById (children : List Node) (ids : List Nat) : List Node :=
  ids.foldl eraseById children

/-- The predicate of the unpack filter, `node.type === 'FRAME'`. -/
def isFrameNode (node : Node) : Bool := node.ty == "FRAME"

/-! ### Pages and document state -/

/-- A document page: a name and its ordered top-level content. -/
structure Page where
  name : String
  children : List Node

/-- The document: its ordered pages, the index of the active page
(`figma.currentPage`), the node-identity allocator, and the notification
log (`figma.notify`).  The selection and viewport calls of the source are
pure UI effects with no bearing on the document tree and are not
modelled. -/
structure FigmaState where
  pages : List Page
  current : Nat
  nextId : Nat
  notes : List String

def defaultPage : Page := ⟨"", []⟩

/-- The page at index `i` of the document. -/
def pageAt (s : FigmaState) (i : Nat) : Page := s.pages.getD i defaultPage

/-- Apply `f` to the element at index `i`, if any. -/
def modifyAt : List α → Nat → (α → α) → List α
  | [], _, _ => []
  | a :: as, 0, f => f a :: as
  | a :: as, n + 1, f => a :: modifyAt as n f

/-- Mutate the page object at index `i`, as the source does through the
live page reference. -/
def modifyPage (s : FigmaState) (i : Nat) (f : Page → Page) : FigmaState :=
  { s with pages := modifyAt s.pages i f }

/-- Embedding of `figma.notify`. -/
def notify (s : FigmaState) (msg : String) : FigmaState :=
  { s with notes := s.notes ++ [msg] }

/-! ### The engine of `src/src/types.ts` -/

def TEMP_PAGE_NAME : String := "__TCC_TEMP__"

/-- Source `isTempPage`: the page's trimmed name equals the reserved
sentinel. -/
def isTempPage (page : Page) : Bool := strTrim page.name == TEMP_PAGE_NAME

/-- Index of the first staging page, mirroring
`figma.root.children.find((page) => isTempPage(page))`. -/
def findTempIdx : List Page → Option Nat
  | [] => none
  | p :: ps => if isTempPage p then some 0 else (findTempIdx ps).map (· + 1)

/-- Source `getOrCreateTempPage`: return the first staging page if one
exists, otherwise create a page named exactly `TEMP_PAGE_NAME` and insert
it at the end of the document's page list.  Returns the page's index. -/
def getOrCreateTempPage (s : FigmaState) : FigmaState × Nat :=
  match findTempIdx s.pages with
  | some i => (s, i)
  | none => ({ s with pages := s.pages ++ [⟨TEMP_PAGE_NAME, []⟩] }, s.pages.length)

/-- Source `clearPage`: remove every top-level child of the page at index
`i` (the source removes them one by one; the net effect is an empty child
list). -/
def clearPage (s : FigmaState) (i : Nat) : FigmaState :=
  modifyPage s i (fun p => { p with children := [] })

/-- The success notification of `packPages`. -/
def packedMsg (n : Nat) : String :=
  "Packed " ++ natToDec n ++ " page" ++ (if n = 1 then "" else "s") ++ " into " ++
    TEMP_PAGE_NAME ++ ". Copy selection (Cmd/Ctrl+C)."

/-- The success notification of `unpackPages`. -/
def unpackedMsg (n : Nat) : String :=
  "Unpacked " ++ natToDec n ++ " page" ++ (if n = 1 then "" else "s") ++ " from " ++
    TEMP_PAGE_NAME ++ "."

/-- One candidate of the collision loop, the template
`baseName (Imported suffix)`. -/
def importCandidate (base : String) (suffix : Nat) : String :=
  base ++ " (Imported " ++ natToDec suffix ++ ")"

/-- The `while` loop of `getUniquePageName`: increment `suffix` while the
candidate collides.  The loop of the source is unbounded; here it carries
structural fuel, and `existingNames.length + 1` fuel is always enough
(`findFreeSuffix_spec`). -/
def findFreeSuffix (existingNames : List String) (base : String) : Nat → Nat → Nat
  | suffix, 0 => suffix
  | suffix, fuel + 1 =>
      if importCandidate base suffix ∈ existingNames then
        findFreeSuffix existingNames base (suffix + 1) fuel
      else suffix

/-- Source `getUniquePageName`.  The source reads the existing page names
from `figma.root.children`; the embedding receives that name list as the
explicit argument `existingNames`. -/
def getUniquePageName (existingNames : List String) (baseName : String) : String :=
  let trimmedBaseName := if strTrim baseName = "" then "Untitled" else strTrim baseName
  if trimmedBaseName ∈ existingNames then
    importCandidate trimmedBaseName
      (findFreeSuffix existingNames trimmedBaseName 2 (existingNames.length + 1))
  else trimmedBaseName

/-- Source `cloneTopLevelNodesIntoFrame`: append a clone of every
top-level node of the source page to the target frame, in source order,
threading the identity allocator. -/
def cloneTopLevelNodesIntoFrame (sourcePage : Page) (targetFrame : Node) (counter : Nat) :
    Node × Nat :=
  let r := cloneNodes sourcePage.children counter
  match targetFrame with
  | .mk i t nm pd x y h cs => (.mk i t nm pd x y h (cs ++ r.1), r.2)

/-- The body of source `stackFramesVertically`, with the running `y`
explicit. -/
def stackFrom (spacing : Int) : List Node → Int → List Node
  | [], _ => []
  | f :: fs, y => f.setXY 0 y :: stackFrom spacing fs (y + f.height + spacing)

/-- Source `stackFramesVertically`: `x := 0` for every frame, `y` starts
at `0` and advances by the frame's height plus `spacing`.  Frames are not
resized. -/
def stackFramesVertically (frames : List Node) (spacing : Int) : List Node :=
  stackFrom spacing frames 0

/-- The `for (const page of sourcePages)` loop of `packPages`: for each
source page create a frame on the staging page — named after the page,
carrying the page's name under the `tcc:pageName` plugin-data key, with
the host's default geometry (position `(0,0)`, height `100`) — and clone
the page's top-level nodes into it.  The source appends the empty frame
first and then clones into it through the live reference; the net effect
is the fully built frame appended.  Returns the created frames. -/
def packLoop (ti : Nat) : List Page → FigmaState → List Node → FigmaState × List Node
  | [], s, frames => (s, frames)
  | page :: rest, s, frames =>
      let frame0 : Node := .mk s.nextId "FRAME" page.name [("tcc:pageName", page.name)] 0 0 100 []
      let r := cloneTopLevelNodesIntoFrame page frame0 (s.nextId + 1)
      let s2 := { s with nextId := r.2 }
      let s3 := modifyPage s2 ti (fun t => { t with children := t.children ++ [r.1] })
      packLoop ti rest s3 (frames ++ [r.1])

/-- Source `packPages`.  The staging page is cleared before packing and
then holds exactly the created frames, so the source's in-place
`stackFramesVertically(frames, 200)` on the live frame objects is the
update of the staging page's children performed here. -/
def packPages (s : FigmaState) : FigmaState :=
  let sourcePages := s.pages.filter (fun page => !isTempPage page)
  if sourcePages.length = 0 then
    notify s ("No pages found to pack.")
  else
    let r := getOrCreateTempPage s
    let s2 := clearPage r.1 r.2
    let s3 := { s2 with current := r.2 }
    let r2 := packLoop r.2 sourcePages s3 []
    let s4 := modifyPage r2.1 r.2
      (fun t => { t with children := stackFramesVertically t.children 200 })
    notify s4 (packedMsg r2.2.length)

/-- The preferred page name the unpack loop derives from a frame, the
source's `frame.getPluginData('tcc:pageName') || frame.name`: the
`tcc:pageName` plugin data when non-empty (the empty string is falsy),
else the frame's own name. -/
def preferredNameOf (frame : Node) : String :=
  if frame.getPluginData ("tcc:pageName") = "" then frame.name
  else frame.getPluginData ("tcc:pageName")

/-- The `for (const frame of frames)` loop of `unpackPages`: for each
captured top-level frame, read the preferred name (the `tcc:pageName`
plugin data when non-empty, else the frame's name — the `||` of the
source), resolve it against the current page names, create a page with
that name at the end of the document, move the frame's children onto it
(in order, by reparenting), and remove the frame from the staging page. -/
def unpackLoop (ti : Nat) : List Node → FigmaState → Nat → FigmaState × Nat
  | [], s, count => (s, count)
  | frame :: rest, s, count =>
      let pageName := getUniquePageName (s.pages.map Page.name) (preferredNameOf frame)
      let s2 := { s with pages := s.pages ++ [⟨pageName, frame.children⟩] }
      let s3 := modifyPage s2 ti (fun t => { t with children := eraseById t.children frame.id })
      unpackLoop ti rest s3 (count + 1)

/-- Source `unpackPages`. -/
def unpackPages (s : FigmaState) : FigmaState :=
  match findTempIdx s.pages with
  | none => notify s ("Missing " ++ TEMP_PAGE_NAME ++ " page. Paste your packed frames first.")
  | some ti =>
      let s1 := if s.current ≠ ti then { s with current := ti } else s
      let frames := (pageAt s1 ti).children.filter isFrameNode
      if frames.length = 0 then
        notify s1 ("No top-level frames found on " ++ TEMP_PAGE_NAME ++ ".")
      else
        let r := unpackLoop ti frames s1 0
        let s2 := { r.1 with current := r.1.pages.length - 1 }
        notify s2 (unpackedMsg r.2)

/-! ### Derived observations used by the theorems -/

/-- The frames a pack run builds for the given source pages, starting from
the given allocator value: the pure content of `packLoop`. -/
def mkFrames : List Page → Nat → List Node × Nat
  | [], c => ([], c)
  | page :: rest, c =>
      let r := cloneTopLevelNodesIntoFrame page
        (.mk c "FRAME" page.name [("tcc:pageName", page.name)] 0 0 100 []) (c + 1)
      let r2 := mkFrames rest r.2
      (r.1 :: r2.1, r2.2)

/-- The trimmed form the resolver reduces a preferred name to: the trimmed
string, or the fallback when trimming leaves nothing. -/
def trimOrUntitled (baseName : String) : String :=
  if strTrim baseName = "" then "Untitled" else strTrim baseName

/-- Structural (identity-erased) content of the staging page, when one
exists. -/
def stagingContent (s : FigmaState) : Option (List Node) :=
  (findTempIdx s.pages).map (fun i => stripNodes (pageAt s i).children)

/-- Name and structural top-level content of each non-staging page, in
document order. -/
def nonStagingPairs (s : FigmaState) : List (String × List Node) :=
  (s.pages.filter (fun page => !isTempPage page)).map
    (fun page => (page.name, stripNodes page.children))

/-! ### General lemmas: decimal rendering -/

theorem decDigits_fuel : ∀ f1 f2 n, n ≤ f1 → n ≤ f2 → decDigits f1 n = decDigits f2 n := by
  intro f1
  induction f1 with
  | zero =>
    intro f2 n h1 _
    interval_cases n
    cases f2 <;> simp [decDigits]
  | succ f ih =>
    intro f2 n h1 h2
    cases f2 with
    | zero =>
      interval_cases n
      simp [decDigits]
    | succ g =>
      simp only [decDigits]
      by_cases hn : n = 0
      · simp [hn]
      · simp only [hn, if_false]
        have hlt : n / 10 < n := Nat.div_lt_self (Nat.pos_of_ne_zero hn) (by norm_num)
        have hd : n / 10 ≤ f := by omega
        have hd2 : n / 10 ≤ g := by omega
        rw [ih g (n / 10) hd hd2]

theorem ofDec_decDigits : ∀ fuel n, n ≤ fuel → ofDec (decDigits fuel n) = n := by
  intro fuel
  induction fuel with
  | zero =>
    intro n h
    interval_cases n
    simp [decDigits, ofDec]
  | succ f ih =>
    intro n h
    by_cases hn : n = 0
    · simp [hn, decDigits, ofDec]
    · simp only [decDigits, hn, if_false, ofDec]
      have hlt : n / 10 < n := Nat.div_lt_self (Nat.pos_of_ne_zero hn) (by norm_num)
      have hd : n / 10 ≤ f := by omega
      rw [ih (n / 10) hd]
      exact Nat.mod_add_div n 10

theorem decDigits_lt_ten : ∀ fuel n, ∀ d ∈ decDigits fuel n, d < 10 := by
  intro fuel
  induction fuel with
  | zero => intro n d hd; simp [decDigits] at hd
  | succ f ih =>
    intro n d hd
    by_cases hn : n = 0
    · simp [decDigits, hn] at hd
    · simp only [decDigits, hn, if_false, List.mem_cons] at hd
      rcases hd with h | h
      · exact h ▸ Nat.mod_lt n (by norm_num)
      · exact ih (n / 10) d h

theorem digitChar_inj_lt : ∀ a < 10, ∀ b < 10, Nat.digitChar a = Nat.digitChar b → a = b := by
  decide

theorem map_digitChar_inj : ∀ l1 l2 : List Nat, (∀ d ∈ l1, d < 10) → (∀ d ∈ l2, d < 10) →
    l1.map Nat.digitChar = l2.map Nat.digitChar → l1 = l2 := by
  intro l1
  induction l1 with
  | nil => intro l2 _ _ h; cases l2 <;> simp_all
  | cons a as ih =>
    intro l2 h1 h2 h
    cases l2 with
    | nil => simp at h
    | cons b bs =>
      simp only [List.map_cons, List.cons.injEq] at h
      have ha : a = b := digitChar_inj_lt a (h1 a (by simp)) b (h2 b (by simp)) h.1
      have hb : as = bs := ih bs (fun d hd => h1 d (by simp [hd])) (fun d hd => h2 d (by simp [hd])) h.2
      rw [ha, hb]

theorem natToDec_inj : Function.Injective natToDec := by
  intro m n h
  unfold natToDec at h
  by_cases hm : m = 0 <;> by_cases hn : n = 0
  · rw [hm, hn]
  · exfalso
    simp only [hm, if_pos rfl, hn, if_false] at h
    have hdata : List.cons '0' [] = ((decDigits n n).map Nat.digitChar).reverse :=
      congrArg String.data h
    have hlen : (decDigits n n).length = 1 := by
      have := congrArg List.length hdata
      simpa using this.symm
    rcases List.length_eq_one.mp hlen with ⟨d, hd⟩
    rw [hd] at hdata
    simp only [List.map_cons, List.map_nil, List.reverse_cons, List.reverse_nil,
      List.nil_append, List.cons.injEq] at hdata
    have hd10 : d < 10 := decDigits_lt_ten n n d (by rw [hd]; simp)
    have hd0 : d = 0 := by
      have : Nat.digitChar d = Nat.digitChar 0 := by rw [← hdata.1]; rfl
      exact digitChar_inj_lt d hd10 0 (by norm_num) this
    have : n = 0 := by
      have := ofDec_decDigits n n le_rfl
      rw [hd, hd0] at this
      simpa [ofDec] using this.symm
    exact hn this
  · exfalso
    simp only [hn, if_pos rfl, hm, if_false] at h
    have hdata : ((decDigits m m).map Nat.digitChar).reverse = List.cons '0' [] :=
      congrArg String.data h
    have hlen : (decDigits m m).length = 1 := by
      have := congrArg List.length hdata
      simpa using this
    rcases List.length_eq_one.mp hlen with ⟨d, hd⟩
    rw [hd] at hdata
    simp only [List.map_cons, List.map_nil, List.reverse_cons, List.reverse_nil,
      List.nil_append, List.cons.injEq] at hdata
    have hd10 : d < 10 := decDigits_lt_ten m m d (by rw [hd]; simp)
    have hd0 : d = 0 := by
      have : Nat.digitChar d = Nat.digitChar 0 := by rw [hdata.1]; rfl
      exact digitChar_inj_lt d hd10 0 (by norm_num) this
    have : m = 0 := by
      have := ofDec_decDigits m m le_rfl
      rw [hd, hd0] at this
      simpa [ofDec] using this.symm
    exact hm this
  · simp only [hm, hn, if_false] at h
    have hdata := congrArg String.data h
    simp only [List.reverse_inj] at hdata
    have := map_digitChar_inj (decDigits m m) (decDigits n n)
      (decDigits_lt_ten m m) (decDigits_lt_ten n n) hdata
    have hm' := ofDec_decDigits m m le_rfl
    have hn' := ofDec_decDigits n n le_rfl
    rw [← hm', ← hn', this]

/-! ### General lemmas: trimming -/

theorem dropWhile_dropWhile (p : α → Bool) (l : List α) :
    (l.dropWhile p).dropWhile p = l.dropWhile p := by
  induction l with
  | nil => rfl
  | cons a as ih =>
    by_cases h : p a
    · simp [List.dropWhile, h, ih]
    · simp [List.dropWhile, h]

theorem dropWhile_trimBack (p : α → Bool) (l : List α) (h : l.dropWhile p = l) :
    ((l.reverse.dropWhile p).reverse).dropWhile p = (l.reverse.dropWhile p).reverse := by
  have hsplit : l = (l.reverse.dropWhile p).reverse ++ (l.reverse.takeWhile p).reverse := by
    have htd := List.takeWhile_append_dropWhile (p := p) (l := l.reverse)
    calc l = l.reverse.reverse := (List.reverse_reverse l).symm
    _ = ((l.reverse.takeWhile p) ++ (l.reverse.dropWhile p)).reverse := by rw [htd]
    _ = _ := by rw [List.reverse_append]
  cases hp : (l.reverse.dropWhile p).reverse with
  | nil => rfl
  | cons a as =>
    have hla : l = a :: (as ++ (l.reverse.takeWhile p).reverse) := by
      conv_lhs => rw [hsplit, hp]
      simp
    have hpa : p a = false := by
      by_contra hcon
      have hpa' : p a = true := by simpa using hcon
      rw [hla] at h
      rw [List.dropWhile_cons_of_pos hpa'] at h
      have hlen : (List.dropWhile p (as ++ (l.reverse.takeWhile p).reverse)).length ≤
          (as ++ (l.reverse.takeWhile p).reverse).length :=
        ((List.dropWhile_suffix p).sublist).length_le
      have := congrArg List.length h
      simp only [List.length_cons, List.length_append] at this hlen
      omega
    simp [List.dropWhile, hpa]

theorem strTrim_idem (s : String) : strTrim (strTrim s) = strTrim s := by
  unfold strTrim
  apply congrArg String.mk
  have h1 := dropWhile_trimBack isTrimmedWS (s.data.dropWhile isTrimmedWS)
    (dropWhile_dropWhile isTrimmedWS s.data)
  show ((((((s.data.dropWhile isTrimmedWS).reverse.dropWhile
      isTrimmedWS).reverse).dropWhile isTrimmedWS).reverse.dropWhile isTrimmedWS)).reverse = _
  rw [h1, List.reverse_reverse, dropWhile_dropWhile]

/-! ### General lemmas: list modification and staging-page lookup -/

theorem modifyAt_length (l : List α) (i : Nat) (f : α → α) :
    (modifyAt l i f).length = l.length := by
  induction l generalizing i with
  | nil => rfl
  | cons a as ih =>
    cases i with
    | zero => rfl
    | succ n => simp [modifyAt, ih]

theorem modifyAt_getElem?_ne (l : List α) (i j : Nat) (f : α → α) (h : i ≠ j) :
    (modifyAt l i f)[j]? = l[j]? := by
  induction l generalizing i j with
  | nil => rfl
  | cons a as ih =>
    cases i with
    | zero =>
      cases j with
      | zero => exact absurd rfl h
      | succ m => simp [modifyAt]
    | succ n =>
      cases j with
      | zero => simp [modifyAt]
      | succ m =>
        simp only [modifyAt, List.getElem?_cons_succ]
        exact ih n m (by omega)

theorem modifyAt_getElem?_eq (l : List α) (i : Nat) (f : α → α) :
    (modifyAt l i f)[i]? = l[i]?.map f := by
  induction l generalizing i with
  | nil => rfl
  | cons a as ih =>
    cases i with
    | zero => simp [modifyAt]
    | succ n => simp [modifyAt, ih]

theorem modifyAt_modifyAt (l : List α) (i : Nat) (f g : α → α) :
    modifyAt (modifyAt l i f) i g = modifyAt l i (fun a => g (f a)) := by
  induction l generalizing i with
  | nil => rfl
  | cons a as ih =>
    cases i with
    | zero => rfl
    | succ n => simp [modifyAt, ih]

theorem modifyAt_id (l : List α) (i : Nat) : modifyAt l i (fun a => a) = l := by
  induction l generalizing i with
  | nil => rfl
  | cons a as ih =>
    cases i with
    | zero => rfl
    | succ n => simp [modifyAt, ih]

theorem modifyAt_append_left (l t : List α) (i : Nat) (f : α → α) (h : i < l.length) :
    modifyAt (l ++ t) i f = modifyAt l i f ++ t := by
  induction l generalizing i with
  | nil => simp at h
  | cons a as ih =>
    cases i with
    | zero => rfl
    | succ n =>
      simp only [List.cons_append, modifyAt, List.cons.injEq, true_and]
      exact ih n (by simpa using h)

theorem modifyAt_map (l : List α) (i : Nat) (f : α → α) (g : α → β)
    (hf : ∀ a, g (f a) = g a) : (modifyAt l i f).map g = l.map g := by
  induction l generalizing i with
  | nil => rfl
  | cons a as ih =>
    cases i with
    | zero => simp [modifyAt, hf]
    | succ n => simp [modifyAt, ih]

theorem modifyAt_filter_of_false (q : α → Bool) (l : List α) (i : Nat) (f : α → α)
    (h1 : ∀ a, l[i]? = some a → q a = false ∧ q (f a) = false) :
    (modifyAt l i f).filter q = l.filter q := by
  induction l generalizing i with
  | nil => rfl
  | cons a as ih =>
    cases i with
    | zero =>
      have := h1 a (by simp)
      simp [modifyAt, List.filter, this.1, this.2]
    | succ n =>
      simp only [modifyAt, List.filter]
      rw [ih n (fun b hb => h1 b (by simpa using hb))]

theorem isTempPage_congr (p q : Page) (h : q.name = p.name) : isTempPage q = isTempPage p := by
  simp [isTempPage, h]

theorem findTempIdx_lt (l : List Page) (i : Nat) (h : findTempIdx l = some i) : i < l.length := by
  induction l generalizing i with
  | nil => simp [findTempIdx] at h
  | cons a as ih =>
    cases ha : isTempPage a with
    | true =>
      simp [findTempIdx, ha] at h
      simp [← h]
    | false =>
      cases hfa : findTempIdx as with
      | none => simp [findTempIdx, ha, hfa] at h
      | some j =>
        simp [findTempIdx, ha, hfa] at h
        have := ih j hfa
        simp
        omega

theorem findTempIdx_isTemp (l : List Page) (i : Nat) (h : findTempIdx l = some i) :
    ∃ p, l[i]? = some p ∧ isTempPage p = true := by
  induction l generalizing i with
  | nil => simp [findTempIdx] at h
  | cons a as ih =>
    cases ha : isTempPage a with
    | true =>
      simp [findTempIdx, ha] at h
      exact ⟨a, by simp [← h], ha⟩
    | false =>
      cases hfa : findTempIdx as with
      | none => simp [findTempIdx, ha, hfa] at h
      | some j =>
        simp [findTempIdx, ha, hfa] at h
        rcases ih j hfa with ⟨p, hp, htemp⟩
        refine ⟨p, ?_, htemp⟩
        rw [← h]
        simpa using hp

theorem findTempIdx_before (l : List Page) (i : Nat) (h : findTempIdx l = some i) :
    ∀ j < i, ∀ p, l[j]? = some p → isTempPage p = false := by
  induction l generalizing i with
  | nil => simp [findTempIdx] at h
  | cons a as ih =>
    cases ha : isTempPage a with
    | true =>
      simp [findTempIdx, ha] at h
      omega
    | false =>
      cases hfa : findTempIdx as with
      | none => simp [findTempIdx, ha, hfa] at h
      | some m =>
        simp [findTempIdx, ha, hfa] at h
        intro j hj p hp
        cases j with
        | zero =>
          simp at hp
          rw [← hp]
          exact ha
        | succ n =>
          simp at hp
          exact ih m hfa n (by omega) p hp

theorem findTempIdx_none_iff (l : List Page) :
    findTempIdx l = none ↔ ∀ p ∈ l, isTempPage p = false := by
  induction l with
  | nil => simp [findTempIdx]
  | cons a as ih =>
    cases ha : isTempPage a with
    | true =>
      simp [findTempIdx, ha]
    | false =>
      simp only [findTempIdx, ha, Bool.false_eq_true, if_false, Option.map_eq_none',
        List.mem_cons]
      rw [ih]
      constructor
      · intro h p hp
        rcases hp with rfl | hp
        · exact ha
        · exact h p hp
      · intro h p hp
        exact h p (Or.inr hp)

theorem findTempIdx_append_singleton_of_none (l : List Page) (p : Page)
    (h : findTempIdx l = none) (hp : isTempPage p = true) :
    findTempIdx (l ++ [p]) = some l.length := by
  induction l with
  | nil => simp [findTempIdx, hp]
  | cons a as ih =>
    cases ha : isTempPage a with
    | true => simp [findTempIdx, ha] at h
    | false =>
      simp only [findTempIdx, ha, Bool.false_eq_true, if_false, Option.map_eq_none'] at h
      simp [findTempIdx, ha, ih h]

theorem findTempIdx_append_left (l t : List Page) (i : Nat) (h : findTempIdx l = some i) :
    findTempIdx (l ++ t) = some i := by
  induction l generalizing i with
  | nil => simp [findTempIdx] at h
  | cons a as ih =>
    cases ha : isTempPage a with
    | true =>
      simp [findTempIdx, ha] at h ⊢
      exact h
    | false =>
      cases hfa : findTempIdx as with
      | none => simp [findTempIdx, ha, hfa] at h
      | some j =>
        simp [findTempIdx, ha, hfa] at h
        simp [List.cons_append, findTempIdx, ha, ih j hfa, h]

theorem findTempIdx_modifyAt (l : List Page) (i : Nat) (f : Page → Page)
    (hf : ∀ p, (f p).name = p.name) : findTempIdx (modifyAt l i f) = findTempIdx l := by
  induction l generalizing i with
  | nil => rfl
  | cons a as ih =>
    cases i with
    | zero =>
      simp only [modifyAt, findTempIdx, isTempPage_congr a (f a) (hf a)]
    | succ n =>
      simp only [modifyAt, findTempIdx]
      cases ha : isTempPage a <;> simp [ha, ih]

/-! ### General lemmas: the name resolver -/

theorem importCandidate_inj (base : String) (a b : Nat)
    (h : importCandidate base a = importCandidate base b) : a = b := by
  unfold importCandidate at h
  have hd := congrArg String.data h
  simp only [String.data_append] at hd
  have h2 := List.append_cancel_right hd
  have h3 := List.append_cancel_left h2
  exact natToDec_inj (String.ext h3)

theorem findFreeSuffix_spec (names : List String) (base : String) :
    ∀ fuel start, (∃ j < fuel, importCandidate base (start + j) ∉ names) →
      start ≤ findFreeSuffix names base start fuel ∧
      importCandidate base (findFreeSuffix names base start fuel) ∉ names ∧
      ∀ i, start ≤ i → i < findFreeSuffix names base start fuel →
        importCandidate base i ∈ names := by
  intro fuel
  induction fuel with
  | zero =>
    intro start h
    rcases h with ⟨j, hj, _⟩
    omega
  | succ f ih =>
    intro start h
    by_cases hc : importCandidate base start ∈ names
    · have hex : ∃ j < f, importCandidate base (start + 1 + j) ∉ names := by
        rcases h with ⟨j, hj, hfree⟩
        cases j with
        | zero => exact absurd hc (by simpa using hfree)
        | succ m =>
          refine ⟨m, by omega, ?_⟩
          have : start + 1 + m = start + (m + 1) := by omega
          rw [this]
          exact hfree
      have hr := ih (start + 1) hex
      simp only [findFreeSuffix, if_pos hc]
      refine ⟨by omega, hr.2.1, ?_⟩
      intro i hi1 hi2
      by_cases hi : i = start
      · rw [hi]
        exact hc
      · exact hr.2.2 i (by omega) hi2
    · simp only [findFreeSuffix, if_neg hc]
      exact ⟨le_rfl, hc, fun i h1 h2 => by omega⟩

theorem exists_free_candidate (names : List String) (base : String) (start : Nat) :
    ∃ j < names.length + 1, importCandidate base (start + j) ∉ names := by
  by_contra hcon
  push_neg at hcon
  have hinj : Function.Injective (fun j : Nat => importCandidate base (start + j)) := by
    intro a b hab
    have := importCandidate_inj base (start + a) (start + b) hab
    omega
  have hnodup : ((List.range (names.length + 1)).map
      (fun j => importCandidate base (start + j))).Nodup :=
    List.Nodup.map hinj (List.nodup_range _)
  have hsub : ∀ x ∈ (List.range (names.length + 1)).map
      (fun j => importCandidate base (start + j)), x ∈ names := by
    intro x hx
    simp only [List.mem_map, List.mem_range] at hx
    rcases hx with ⟨j, hj, rfl⟩
    exact hcon j hj
  have h1 : ((List.range (names.length + 1)).map
      (fun j => importCandidate base (start + j))).toFinset.card = names.length + 1 := by
    rw [List.toFinset_card_of_nodup hnodup]
    simp
  have h2 : ((List.range (names.length + 1)).map
      (fun j => importCandidate base (start + j))).toFinset ⊆ names.toFinset := by
    intro x hx
    rw [List.mem_toFinset] at hx ⊢
    exact hsub x hx
  have h3 := Finset.card_le_card h2
  have h4 := List.toFinset_card_le names
  omega

theorem getUniquePageName_eq (names : List String) (base : String) :
    getUniquePageName names base =
      if trimOrUntitled base ∈ names then
        importCandidate (trimOrUntitled base)
          (findFreeSuffix names (trimOrUntitled base) 2 (names.length + 1))
      else trimOrUntitled base := rfl

theorem getUniquePageName_of_not_mem (names : List String) (base : String)
    (h : trimOrUntitled base ∉ names) : getUniquePageName names base = trimOrUntitled base := by
  rw [getUniquePageName_eq, if_neg h]

theorem getUniquePageName_of_mem (names : List String) (base : String)
    (h : trimOrUntitled base ∈ names) :
    ∃ k, 2 ≤ k ∧ getUniquePageName names base = importCandidate (trimOrUntitled base) k ∧
      importCandidate (trimOrUntitled base) k ∉ names ∧
      ∀ j, 2 ≤ j → j < k → importCandidate (trimOrUntitled base) j ∈ names := by
  have hex : ∃ j < names.length + 1,
      importCandidate (trimOrUntitled base) (2 + j) ∉ names :=
    exists_free_candidate names (trimOrUntitled base) 2
  have hfs := findFreeSuffix_spec names (trimOrUntitled base) (names.length + 1) 2 hex
  refine ⟨findFreeSuffix names (trimOrUntitled base) 2 (names.length + 1),
    hfs.1, ?_, hfs.2.1, fun j h2 hk => hfs.2.2 j h2 hk⟩
  rw [getUniquePageName_eq, if_pos h]

theorem getUniquePageName_not_mem (names : List String) (base : String) :
    getUniquePageName names base ∉ names := by
  by_cases h : trimOrUntitled base ∈ names
  · rcases getUniquePageName_of_mem names base h with ⟨k, _, heq, hfree, _⟩
    rw [heq]
    exact hfree
  · rw [getUniquePageName_of_not_mem names base h]
    exact h

/-! ### General lemmas: resolver output is trimmed -/

theorem strTrim_eq_self_of (s : String)
    (h1 : s.data.dropWhile isTrimmedWS = s.data)
    (h2 : s.data.reverse.dropWhile isTrimmedWS = s.data.reverse) : strTrim s = s := by
  unfold strTrim
  rw [h1, h2, List.reverse_reverse]

theorem dropWhile_eq_self_front (s : String) (h : strTrim s = s) :
    s.data.dropWhile isTrimmedWS = s.data := by
  have hsub := (List.dropWhile_suffix (l := s.data) isTrimmedWS).sublist
  apply hsub.eq_of_length
  have hd := congrArg (fun t : String => t.data.length) h
  unfold strTrim at hd
  simp only [List.length_reverse] at hd
  have l1 : ((s.data.dropWhile isTrimmedWS).reverse.dropWhile isTrimmedWS).length ≤
      (s.data.dropWhile isTrimmedWS).reverse.length :=
    ((List.dropWhile_suffix isTrimmedWS).sublist).length_le
  have l2 : (s.data.dropWhile isTrimmedWS).length ≤ s.data.length :=
    ((List.dropWhile_suffix isTrimmedWS).sublist).length_le
  simp only [List.length_reverse] at l1
  omega

theorem dropWhile_eq_self_back (s : String) (h : strTrim s = s) :
    s.data.reverse.dropWhile isTrimmedWS = s.data.reverse := by
  have hfront := dropWhile_eq_self_front s h
  have hd : ((s.data.dropWhile isTrimmedWS).reverse.dropWhile isTrimmedWS).reverse = s.data :=
    congrArg String.data h
  rw [hfront] at hd
  have := congrArg List.reverse hd
  simpa using this

theorem trimOrUntitled_trimmed (base : String) :
    strTrim (trimOrUntitled base) = trimOrUntitled base := by
  unfold trimOrUntitled
  by_cases h : strTrim base = ""
  · rw [if_pos h]
    decide
  · rw [if_neg h]
    exact strTrim_idem base

theorem dropWhile_append_front (p : α → Bool) (l m : List α) (hl : l.dropWhile p = l)
    (hne : l ≠ []) : (l ++ m).dropWhile p = l ++ m := by
  cases l with
  | nil => exact absurd rfl hne
  | cons a as =>
    have hpa : p a = false := by
      by_contra hcon
      have hpa' : p a = true := by simpa using hcon
      rw [List.dropWhile_cons_of_pos hpa'] at hl
      have hle : (as.dropWhile p).length ≤ as.length :=
        ((List.dropWhile_suffix p).sublist).length_le
      have := congrArg List.length hl
      simp at this
      omega
    simp [List.dropWhile, hpa]

theorem string_data_ne_nil (s : String) (h : s ≠ "") : s.data ≠ [] := by
  intro hd
  exact h (String.ext (by simpa using hd))

theorem importCandidate_trimmed (base : String) (k : Nat)
    (hb : strTrim base = base) (hne : base ≠ "") :
    strTrim (importCandidate base k) = importCandidate base k := by
  apply strTrim_eq_self_of
  · have hdata : (importCandidate base k).data =
        base.data ++ (" (Imported ".data ++ ((natToDec k).data ++ ")".data)) := by
      unfold importCandidate
      simp [String.data_append]
    rw [hdata]
    exact dropWhile_append_front isTrimmedWS base.data _
      (dropWhile_eq_self_front base hb) (string_data_ne_nil base hne)
  · have hdata2 : (importCandidate base k).data =
        (base ++ " (Imported " ++ natToDec k).data ++ [')'] := by
      unfold importCandidate
      simp [String.data_append]
    rw [hdata2, List.reverse_append]
    simp [List.dropWhile, isTrimmedWS]

theorem trimOrUntitled_ne_empty (base : String) : trimOrUntitled base ≠ "" := by
  unfold trimOrUntitled
  by_cases he : strTrim base = ""
  · rw [if_pos he]
    decide
  · rw [if_neg he]
    exact he

theorem getUniquePageName_trimmed (names : List String) (base : String) :
    strTrim (getUniquePageName names base) = getUniquePageName names base := by
  rw [getUniquePageName_eq]
  by_cases h : trimOrUntitled base ∈ names
  · rw [if_pos h]
    exact importCandidate_trimmed (trimOrUntitled base) _
      (trimOrUntitled_trimmed base) (trimOrUntitled_ne_empty base)
  · rw [if_neg h]
    exact trimOrUntitled_trimmed base

/-! ### General lemmas: cloning and structural equivalence -/

mutual

theorem stripNode_cloneNode : ∀ (n : Node) (c : Nat), stripNode (cloneNode n c).1 = stripNode n
  | .mk i ty nm pd x y h cs, c => by
    simp only [cloneNode, stripNode]
    rw [stripNodes_cloneNodes cs (c + 1)]

theorem stripNodes_cloneNodes : ∀ (ns : List Node) (c : Nat),
    stripNodes (cloneNodes ns c).1 = stripNodes ns
  | [], _ => rfl
  | n :: ns, c => by
    simp only [cloneNodes, stripNodes]
    rw [stripNode_cloneNode n c, stripNodes_cloneNodes ns _]

end

theorem stripNodes_eq_map (l : List Node) : stripNodes l = l.map stripNode := by
  induction l with
  | nil => rfl
  | cons n ns ih => simp [stripNodes, ih]

theorem setXY_ty (n : Node) (a b : Int) : (n.setXY a b).ty = n.ty := by cases n; rfl

theorem setXY_name (n : Node) (a b : Int) : (n.setXY a b).name = n.name := by cases n; rfl

theorem setXY_height (n : Node) (a b : Int) : (n.setXY a b).height = n.height := by cases n; rfl

theorem setXY_children (n : Node) (a b : Int) : (n.setXY a b).children = n.children := by
  cases n; rfl

theorem setXY_id (n : Node) (a b : Int) : (n.setXY a b).id = n.id := by cases n; rfl

theorem setXY_pluginData (n : Node) (a b : Int) : (n.setXY a b).pluginData = n.pluginData := by
  cases n; rfl

theorem setXY_x (n : Node) (a b : Int) : (n.setXY a b).x = a := by cases n; rfl

theorem setXY_y (n : Node) (a b : Int) : (n.setXY a b).y = b := by cases n; rfl

theorem stripNode_setXY (n : Node) (a b : Int) :
    stripNode (n.setXY a b) = (stripNode n).setXY a b := by cases n; rfl

theorem stripNode_ty (n : Node) : (stripNode n).ty = n.ty := by cases n; rfl

theorem stripNode_name (n : Node) : (stripNode n).name = n.name := by cases n; rfl

theorem stripNode_height (n : Node) : (stripNode n).height = n.height := by cases n; rfl

theorem stripNode_children (n : Node) : (stripNode n).children = stripNodes n.children := by
  cases n; rfl

theorem stripNode_pluginData (n : Node) : (stripNode n).pluginData = n.pluginData := by
  cases n; rfl

/-! ### General lemmas: frame building and stacking -/

theorem mkFrames_length (ps : List Page) (c : Nat) : (mkFrames ps c).1.length = ps.length := by
  induction ps generalizing c with
  | nil => rfl
  | cons p rest ih => simp [mkFrames, cloneTopLevelNodesIntoFrame, ih]

theorem mkFrames_strip (ps : List Page) (c : Nat) :
    (mkFrames ps c).1.map stripNode = ps.map (fun pg =>
      Node.mk 0 "FRAME" pg.name [("tcc:pageName", pg.name)] 0 0 100 (stripNodes pg.children)) := by
  induction ps generalizing c with
  | nil => rfl
  | cons p rest ih =>
    simp only [mkFrames, cloneTopLevelNodesIntoFrame, List.map_cons, List.cons.injEq]
    constructor
    · simp [stripNode, stripNodes_cloneNodes]
    · exact ih _

theorem mkFrames_ty_height (ps : List Page) (c : Nat) :
    ∀ f ∈ (mkFrames ps c).1, f.ty = "FRAME" ∧ f.height = 100 := by
  induction ps generalizing c with
  | nil => intro f hf; simp [mkFrames] at hf
  | cons p rest ih =>
    intro f hf
    simp only [mkFrames, cloneTopLevelNodesIntoFrame, List.mem_cons] at hf
    rcases hf with rfl | hf
    · exact ⟨rfl, rfl⟩
    · exact ih _ f hf

theorem mkFrames_names (ps : List Page) (c : Nat) :
    (mkFrames ps c).1.map Node.name = ps.map Page.name := by
  induction ps generalizing c with
  | nil => rfl
  | cons p rest ih =>
    simp only [mkFrames, cloneTopLevelNodesIntoFrame, List.map_cons, List.cons.injEq]
    exact ⟨rfl, ih _⟩

theorem mkFrames_pluginData (ps : List Page) (c : Nat) :
    (mkFrames ps c).1.map (fun f => f.getPluginData ("tcc:pageName")) = ps.map Page.name := by
  induction ps generalizing c with
  | nil => rfl
  | cons p rest ih =>
    simp only [mkFrames, cloneTopLevelNodesIntoFrame, List.map_cons, List.cons.injEq]
    exact ⟨by trivial, ih _⟩

theorem mkFrames_childrenStrip (ps : List Page) (c : Nat) :
    (mkFrames ps c).1.map (fun f => stripNodes f.children) =
      ps.map (fun p => stripNodes p.children) := by
  induction ps generalizing c with
  | nil => rfl
  | cons p rest ih =>
    simp only [mkFrames, cloneTopLevelNodesIntoFrame, List.map_cons, List.cons.injEq]
    constructor
    · simp [Node.children, stripNodes_cloneNodes]
    · exact ih _

theorem stackFrom_length (sp : Int) (fs : List Node) (y : Int) :
    (stackFrom sp fs y).length = fs.length := by
  induction fs generalizing y with
  | nil => rfl
  | cons f fs ih => simp [stackFrom, ih]

theorem stackFrom_map (sp : Int) (g : Node → β) (hg : ∀ n a b, g (n.setXY a b) = g n) :
    ∀ (fs : List Node) (y : Int), (stackFrom sp fs y).map g = fs.map g := by
  intro fs
  induction fs with
  | nil => intro y; rfl
  | cons f fs ih =>
    intro y
    simp only [stackFrom, List.map_cons, List.cons.injEq]
    exact ⟨hg f 0 y, ih _⟩

theorem stackFrom_strip (sp : Int) :
    ∀ (fs : List Node) (y : Int),
      (stackFrom sp fs y).map stripNode = stackFrom sp (fs.map stripNode) y := by
  intro fs
  induction fs with
  | nil => intro y; rfl
  | cons f fs ih =>
    intro y
    simp only [stackFrom, List.map_cons, List.cons.injEq, stripNode_setXY, stripNode_height]
    exact ⟨by trivial, ih _⟩

theorem stackFrom_x (sp : Int) :
    ∀ (fs : List Node) (y : Int) (i : Nat) (f' : Node),
      (stackFrom sp fs y)[i]? = some f' → f'.x = 0 := by
  intro fs
  induction fs with
  | nil => intro y i f' h; simp [stackFrom] at h
  | cons f fs ih =>
    intro y i f' h
    cases i with
    | zero =>
      simp [stackFrom] at h
      rw [← h, setXY_x]
    | succ n =>
      simp only [stackFrom, List.getElem?_cons_succ] at h
      exact ih _ n f' h

theorem stackFrom_head (sp : Int) (f : Node) (fs : List Node) (y : Int) :
    (stackFrom sp (f :: fs) y)[0]? = some (f.setXY 0 y) := by
  simp [stackFrom]

theorem stackFrom_adj (sp : Int) :
    ∀ (fs : List Node) (y : Int) (i : Nat) (fi fj : Node),
      (stackFrom sp fs y)[i]? = some fi → (stackFrom sp fs y)[i + 1]? = some fj →
        fj.y = fi.y + fi.height + sp := by
  intro fs
  induction fs with
  | nil => intro y i fi fj h _; simp [stackFrom] at h
  | cons f fs ih =>
    intro y i fi fj hi hj
    cases i with
    | zero =>
      simp [stackFrom] at hi
      cases fs with
      | nil => simp [stackFrom] at hj
      | cons g gs =>
        have hj0 : (stackFrom sp (g :: gs) (y + f.height + sp))[0]? = some fj := by
          simpa [stackFrom] using hj
        rw [stackFrom_head] at hj0
        have hfj : fj = g.setXY 0 (y + f.height + sp) := by
          simpa using hj0.symm
        rw [hfj, setXY_y, ← hi, setXY_y, setXY_height]
    | succ n =>
      simp only [stackFrom, List.getElem?_cons_succ] at hi hj
      exact ih _ n fi fj hi hj

/-! ### General lemmas: the pack pipeline -/

theorem modifyAt_children_append (l : List Page) (ti : Nat) (u v : List Node) :
    modifyAt (modifyAt l ti (fun t => { t with children := t.children ++ u })) ti
      (fun t => { t with children := t.children ++ v }) =
    modifyAt l ti (fun t => { t with children := t.children ++ (u ++ v) }) := by
  rw [modifyAt_modifyAt]
  congr 1
  funext t
  cases t
  simp

theorem packLoop_eq (ti : Nat) :
    ∀ (ps : List Page) (s : FigmaState) (acc : List Node),
      packLoop ti ps s acc =
        ({ pages := modifyAt s.pages ti
              (fun t => { t with children := t.children ++ (mkFrames ps s.nextId).1 }),
           current := s.current, nextId := (mkFrames ps s.nextId).2, notes := s.notes },
         acc ++ (mkFrames ps s.nextId).1) := by
  intro ps
  induction ps with
  | nil =>
    intro s acc
    have hfun : (fun t : Page => { t with children := t.children ++ (mkFrames [] s.nextId).1 }) =
        fun t => t := by
      funext t
      cases t
      simp [mkFrames]
    rw [hfun, modifyAt_id]
    simp [packLoop, mkFrames]
  | cons p rest ih =>
    intro s acc
    rw [packLoop, ih]
    simp only [modifyPage]
    rw [modifyAt_children_append]
    simp [mkFrames]

theorem modifyAt_clear_append (l : List Page) (ti : Nat) (frames : List Node) :
    modifyAt (modifyAt l ti (fun t => { t with children := [] })) ti
      (fun t => { t with children := t.children ++ frames }) =
    modifyAt l ti (fun t => { t with children := frames }) := by
  rw [modifyAt_modifyAt]
  simp

theorem modifyAt_set_stack (l : List Page) (ti : Nat) (frames : List Node) :
    modifyAt (modifyAt l ti (fun t => { t with children := frames })) ti
      (fun t => { t with children := stackFramesVertically t.children 200 }) =
    modifyAt l ti (fun t => { t with children := stackFramesVertically frames 200 }) := by
  rw [modifyAt_modifyAt]

theorem tempPageLiteral_isTemp : isTempPage ⟨TEMP_PAGE_NAME, []⟩ = true := by decide

theorem packPages_eq (s : FigmaState)
    (hs : s.pages.filter (fun page => !isTempPage page) ≠ []) :
    packPages s =
      { pages := modifyAt (getOrCreateTempPage s).1.pages (getOrCreateTempPage s).2 (fun t => { t with children := stackFramesVertically (mkFrames (s.pages.filter (fun page => !isTempPage page)) s.nextId).1 200 }),
        current := (getOrCreateTempPage s).2,
        nextId := (mkFrames (s.pages.filter (fun page => !isTempPage page)) s.nextId).2,
        notes := s.notes ++ [packedMsg (s.pages.filter (fun page => !isTempPage page)).length] } := by
  have hlen : ¬((s.pages.filter (fun page => !isTempPage page)).length = 0) := by
    simpa [List.length_eq_zero] using hs
  cases h : findTempIdx s.pages with
  | some i =>
    simp only [packPages, getOrCreateTempPage, h, clearPage, modifyPage, if_neg hlen]
    rw [packLoop_eq]
    simp only [notify, modifyPage]
    rw [modifyAt_clear_append, modifyAt_set_stack]
    simp [mkFrames_length]
  | none =>
    simp only [packPages, getOrCreateTempPage, h, clearPage, modifyPage, if_neg hlen]
    rw [packLoop_eq]
    simp only [notify, modifyPage]
    rw [modifyAt_clear_append, modifyAt_set_stack]
    simp [mkFrames_length]

theorem pageAt_eq (s : FigmaState) (i : Nat) : pageAt s i = (s.pages[i]?).getD defaultPage := by
  simp [pageAt, List.getD_eq_getElem?_getD]

theorem getOrCreateTempPage_findIdx (s : FigmaState) :
    findTempIdx (getOrCreateTempPage s).1.pages = some (getOrCreateTempPage s).2 := by
  unfold getOrCreateTempPage
  cases h : findTempIdx s.pages with
  | some i => simpa using h
  | none =>
    simpa using findTempIdx_append_singleton_of_none s.pages ⟨TEMP_PAGE_NAME, []⟩ h
      tempPageLiteral_isTemp

theorem getOrCreateTempPage_getElem_stable (s : FigmaState) (j : Nat)
    (hj : j < s.pages.length) : (getOrCreateTempPage s).1.pages[j]? = s.pages[j]? := by
  unfold getOrCreateTempPage
  cases h : findTempIdx s.pages with
  | some i => simp
  | none => simp [List.getElem?_append_left hj]

theorem getOrCreateTempPage_filter (s : FigmaState) :
    (getOrCreateTempPage s).1.pages.filter (fun page => !isTempPage page) =
      s.pages.filter (fun page => !isTempPage page) := by
  unfold getOrCreateTempPage
  cases h : findTempIdx s.pages with
  | some i => simp
  | none => simp [List.filter_append, tempPageLiteral_isTemp]

theorem packPages_noop (s : FigmaState)
    (h : s.pages.filter (fun page => !isTempPage page) = []) :
    packPages s = notify s ("No pages found to pack.") := by
  simp only [packPages, h]
  rfl

theorem packPages_preserves (s : FigmaState) (i : Nat) (p : Page)
    (hp : s.pages[i]? = some p) (hnt : isTempPage p = false) :
    (packPages s).pages[i]? = some p := by
  by_cases hf : s.pages.filter (fun page => !isTempPage page) = []
  · rw [packPages_noop s hf]
    exact hp
  · rw [packPages_eq s hf]
    have hi : i < s.pages.length := (List.getElem?_eq_some.mp hp).1
    have hne : (getOrCreateTempPage s).2 ≠ i := by
      intro he
      have hidx := getOrCreateTempPage_findIdx s
      rcases findTempIdx_isTemp _ _ hidx with ⟨q, hq, hqt⟩
      rw [he, getOrCreateTempPage_getElem_stable s i hi, hp] at hq
      have hpq : p = q := by simpa using hq
      rw [← hpq] at hqt
      simp [hnt] at hqt
    show (modifyAt (getOrCreateTempPage s).1.pages (getOrCreateTempPage s).2 _)[i]? = some p
    rw [modifyAt_getElem?_ne _ _ _ _ hne, getOrCreateTempPage_getElem_stable s i hi]
    exact hp

theorem packPages_findIdx (s : FigmaState)
    (hs : s.pages.filter (fun page => !isTempPage page) ≠ []) :
    findTempIdx (packPages s).pages = some (getOrCreateTempPage s).2 := by
  rw [packPages_eq s hs]
  show findTempIdx (modifyAt (getOrCreateTempPage s).1.pages (getOrCreateTempPage s).2 _) =
    some (getOrCreateTempPage s).2
  rw [findTempIdx_modifyAt]
  · exact getOrCreateTempPage_findIdx s
  · intro p
    rfl

theorem packPages_stagingChildren (s : FigmaState)
    (hs : s.pages.filter (fun page => !isTempPage page) ≠ []) :
    ((packPages s).pages[(getOrCreateTempPage s).2]?).map Page.children =
      some (stackFramesVertically
        (mkFrames (s.pages.filter (fun page => !isTempPage page)) s.nextId).1 200) := by
  rw [packPages_eq s hs]
  show ((modifyAt (getOrCreateTempPage s).1.pages (getOrCreateTempPage s).2 _)[(getOrCreateTempPage s).2]?).map Page.children = _
  rw [modifyAt_getElem?_eq]
  rcases findTempIdx_isTemp _ _ (getOrCreateTempPage_findIdx s) with ⟨q, hq, _⟩
  rw [hq]
  simp

theorem packPages_filter (s : FigmaState) :
    (packPages s).pages.filter (fun page => !isTempPage page) =
      s.pages.filter (fun page => !isTempPage page) := by
  by_cases hf : s.pages.filter (fun page => !isTempPage page) = []
  · rw [packPages_noop s hf]
    rfl
  · rw [packPages_eq s hf]
    show (modifyAt (getOrCreateTempPage s).1.pages (getOrCreateTempPage s).2 _).filter _ = _
    rw [modifyAt_filter_of_false]
    · exact getOrCreateTempPage_filter s
    · intro a ha
      rcases findTempIdx_isTemp _ _ (getOrCreateTempPage_findIdx s) with ⟨q, hq, hqt⟩
      rw [hq] at ha
      have haq : a = q := by simpa using ha.symm
      rw [haq]
      have h2 : isTempPage { q with children := stackFramesVertically (mkFrames (s.pages.filter (fun page => !isTempPage page)) s.nextId).1 200 } = true := hqt
      constructor
      · simp [hqt]
      · simp [h2]

/-! ### General lemmas: the unpack pipeline -/

theorem unpackPages_noStaging (s : FigmaState) (h : findTempIdx s.pages = none) :
    unpackPages s =
      notify s ("Missing " ++ TEMP_PAGE_NAME ++ " page. Paste your packed frames first.") := by
  simp only [unpackPages, h]

theorem unpackLoop_cons (ti : Nat) (f : Node) (rest : List Node) (s : FigmaState) (c : Nat) :
    unpackLoop ti (f :: rest) s c =
      unpackLoop ti rest
        ⟨modifyAt (s.pages ++ [⟨getUniquePageName (s.pages.map Page.name) (preferredNameOf f),
            f.children⟩]) ti (fun t => { t with children := eraseById t.children f.id }),
          s.current, s.nextId, s.notes⟩ (c + 1) := by
  rw [unpackLoop]
  simp only [modifyPage]

theorem unpackLoop_basic (ti : Nat) : ∀ (fs : List Node) (s : FigmaState) (c : Nat),
    (unpackLoop ti fs s c).2 = c + fs.length ∧
    (unpackLoop ti fs s c).1.pages.length = s.pages.length + fs.length ∧
    (unpackLoop ti fs s c).1.nextId = s.nextId ∧
    (unpackLoop ti fs s c).1.notes = s.notes ∧
    (unpackLoop ti fs s c).1.current = s.current := by
  intro fs
  induction fs with
  | nil =>
    intro s c
    simp [unpackLoop]
  | cons f rest ih =>
    intro s c
    rw [unpackLoop_cons]
    have hr := ih ⟨modifyAt (s.pages ++ [⟨getUniquePageName (s.pages.map Page.name)
      (preferredNameOf f), f.children⟩]) ti
      (fun t => { t with children := eraseById t.children f.id }),
      s.current, s.nextId, s.notes⟩ (c + 1)
    simp only [modifyAt_length, List.length_append, List.length_cons, List.length_nil] at hr ⊢
    refine ⟨by rw [hr.1]; omega, by rw [hr.2.1]; omega, hr.2.2.1, hr.2.2.2.1, hr.2.2.2.2⟩

theorem unpackLoop_stable (ti : Nat) : ∀ (fs : List Node) (s : FigmaState) (c : Nat) (j : Nat),
    j ≠ ti → j < s.pages.length →
    (unpackLoop ti fs s c).1.pages[j]? = s.pages[j]? := by
  intro fs
  induction fs with
  | nil =>
    intro s c j _ _
    rfl
  | cons f rest ih =>
    intro s c j hj hjl
    rw [unpackLoop_cons]
    rw [ih _ (c + 1) j hj (by simp only [modifyAt_length, List.length_append, List.length_cons, List.length_nil]; omega)]
    show (modifyAt _ ti _)[j]? = _
    rw [modifyAt_getElem?_ne _ _ _ _ (fun he => hj he.symm)]
    exact List.getElem?_append_left hjl

theorem unpackLoop_created (ti : Nat) : ∀ (fs : List Node) (s : FigmaState) (c : Nat)
    (j : Nat) (f' : Node), fs[j]? = some f' → ti < s.pages.length →
    ((unpackLoop ti fs s c).1.pages[s.pages.length + j]?).map Page.children =
      some f'.children := by
  intro fs
  induction fs with
  | nil =>
    intro s c j f' hj _
    simp at hj
  | cons f rest ih =>
    intro s c j f' hj hti
    rw [unpackLoop_cons]
    cases j with
    | zero =>
      have hf' : f' = f := by simpa using hj.symm
      have hstable := unpackLoop_stable ti rest ⟨modifyAt (s.pages ++
        [⟨getUniquePageName (s.pages.map Page.name) (preferredNameOf f), f.children⟩]) ti
        (fun t => { t with children := eraseById t.children f.id }),
        s.current, s.nextId, s.notes⟩ (c + 1) s.pages.length (by omega)
        (by simp only [modifyAt_length, List.length_append, List.length_cons,
          List.length_nil]; omega)
      simp only [Nat.add_zero]
      rw [hstable]
      show ((modifyAt _ ti _)[s.pages.length]?).map Page.children = _
      rw [modifyAt_getElem?_ne _ _ _ _ (by omega)]
      rw [List.getElem?_append_right le_rfl]
      simp [hf']
    | succ n =>
      have hjr : rest[n]? = some f' := by simpa using hj
      have hrec := ih ⟨modifyAt (s.pages ++ [⟨getUniquePageName (s.pages.map Page.name)
        (preferredNameOf f), f.children⟩]) ti
        (fun t => { t with children := eraseById t.children f.id }),
        s.current, s.nextId, s.notes⟩ (c + 1) n f' hjr
        (by simp only [modifyAt_length, List.length_append, List.length_cons,
          List.length_nil]; omega)
      simp only [modifyAt_length, List.length_append, List.length_cons, List.length_nil] at hrec
      have harith : s.pages.length + (n + 1) = s.pages.length + 1 + n := by omega
      rw [harith]
      exact hrec

theorem unpackLoop_nameOf (ti : Nat) : ∀ (fs : List Node) (s : FigmaState) (c : Nat)
    (j : Nat) (f' : Node), fs[j]? = some f' → ti < s.pages.length →
    ∃ names, ((unpackLoop ti fs s c).1.pages[s.pages.length + j]?).map Page.name =
      some (getUniquePageName names (preferredNameOf f')) := by
  intro fs
  induction fs with
  | nil =>
    intro s c j f' hj _
    simp at hj
  | cons f rest ih =>
    intro s c j f' hj hti
    rw [unpackLoop_cons]
    cases j with
    | zero =>
      have hf' : f' = f := by simpa using hj.symm
      have hstable := unpackLoop_stable ti rest ⟨modifyAt (s.pages ++
        [⟨getUniquePageName (s.pages.map Page.name) (preferredNameOf f), f.children⟩]) ti
        (fun t => { t with children := eraseById t.children f.id }),
        s.current, s.nextId, s.notes⟩ (c + 1) s.pages.length (by omega)
        (by simp only [modifyAt_length, List.length_append, List.length_cons,
          List.length_nil]; omega)
      refine ⟨s.pages.map Page.name, ?_⟩
      simp only [Nat.add_zero]
      rw [hstable]
      show ((modifyAt _ ti _)[s.pages.length]?).map Page.name = _
      rw [modifyAt_getElem?_ne _ _ _ _ (by omega)]
      rw [List.getElem?_append_right le_rfl]
      simp [hf']
    | succ n =>
      have hjr : rest[n]? = some f' := by simpa using hj
      rcases ih ⟨modifyAt (s.pages ++ [⟨getUniquePageName (s.pages.map Page.name)
        (preferredNameOf f), f.children⟩]) ti
        (fun t => { t with children := eraseById t.children f.id }),
        s.current, s.nextId, s.notes⟩ (c + 1) n f' hjr
        (by simp only [modifyAt_length, List.length_append, List.length_cons,
          List.length_nil]; omega) with ⟨names, hrec⟩
      simp only [modifyAt_length, List.length_append, List.length_cons, List.length_nil] at hrec
      refine ⟨names, ?_⟩
      have harith : s.pages.length + (n + 1) = s.pages.length + 1 + n := by omega
      rw [harith]
      exact hrec

theorem unpackLoop_temp (ti : Nat) : ∀ (fs : List Node) (s : FigmaState) (c : Nat),
    ti < s.pages.length →
    ((unpackLoop ti fs s c).1.pages[ti]?).map Page.children =
      (s.pages[ti]?).map (fun p => eraseManyById p.children (fs.map Node.id)) := by
  intro fs
  induction fs with
  | nil =>
    intro s c _
    show (s.pages[ti]?).map Page.children = _
    cases s.pages[ti]? <;> simp [eraseManyById]
  | cons f rest ih =>
    intro s c hti
    rw [unpackLoop_cons]
    rw [ih ⟨modifyAt (s.pages ++ [(⟨getUniquePageName (s.pages.map Page.name)
      (preferredNameOf f), f.children⟩ : Page)]) ti
      (fun t => { t with children := eraseById t.children f.id }),
      s.current, s.nextId, s.notes⟩ (c + 1)
      (by simp only [modifyAt_length, List.length_append, List.length_cons,
        List.length_nil]; omega)]
    show ((modifyAt _ ti _)[ti]?).map _ = _
    rw [modifyAt_getElem?_eq, List.getElem?_append_left hti]
    cases s.pages[ti]? <;> simp [eraseManyById]

theorem unpackLoop_names (ti : Nat) : ∀ (fs : List Node) (s : FigmaState) (c : Nat),
    ti < s.pages.length →
    ((((unpackLoop ti fs s c).1.pages.drop s.pages.length).map Page.name).Nodup ∧
    ∀ nm ∈ ((unpackLoop ti fs s c).1.pages.drop s.pages.length).map Page.name,
      nm ∉ s.pages.map Page.name) := by
  intro fs
  induction fs with
  | nil =>
    intro s c _
    constructor
    · show ((s.pages.drop s.pages.length).map Page.name).Nodup
      rw [List.drop_length]
      exact List.nodup_nil
    · show ∀ nm ∈ (s.pages.drop s.pages.length).map Page.name, nm ∉ s.pages.map Page.name
      rw [List.drop_length]
      intro nm hnm
      simp at hnm
  | cons f rest ih =>
    intro s c hti
    rw [unpackLoop_cons]
    have hrec := ih ⟨modifyAt (s.pages ++ [(⟨getUniquePageName (s.pages.map Page.name)
      (preferredNameOf f), f.children⟩ : Page)]) ti
      (fun t => { t with children := eraseById t.children f.id }),
      s.current, s.nextId, s.notes⟩ (c + 1)
      (by simp only [modifyAt_length, List.length_append, List.length_cons,
        List.length_nil]; omega)
    have hbasic := unpackLoop_basic ti rest ⟨modifyAt (s.pages ++
      [(⟨getUniquePageName (s.pages.map Page.name) (preferredNameOf f),
        f.children⟩ : Page)]) ti
      (fun t => { t with children := eraseById t.children f.id }),
      s.current, s.nextId, s.notes⟩ (c + 1)
    have hstable := unpackLoop_stable ti rest ⟨modifyAt (s.pages ++
      [(⟨getUniquePageName (s.pages.map Page.name) (preferredNameOf f),
        f.children⟩ : Page)]) ti
      (fun t => { t with children := eraseById t.children f.id }),
      s.current, s.nextId, s.notes⟩ (c + 1) s.pages.length (by omega)
      (by simp only [modifyAt_length, List.length_append, List.length_cons,
        List.length_nil]; omega)
    simp only [modifyAt_length, List.length_append, List.length_cons,
      List.length_nil, Nat.zero_add] at hrec hbasic
    have hval : (unpackLoop ti rest ⟨modifyAt (s.pages ++
        [(⟨getUniquePageName (s.pages.map Page.name) (preferredNameOf f),
          f.children⟩ : Page)]) ti
        (fun t => { t with children := eraseById t.children f.id }),
        s.current, s.nextId, s.notes⟩ (c + 1)).1.pages[s.pages.length]? =
        some ⟨getUniquePageName (s.pages.map Page.name) (preferredNameOf f), f.children⟩ := by
      rw [hstable]
      show (modifyAt _ ti _)[s.pages.length]? = _
      rw [modifyAt_getElem?_ne _ _ _ _ (by omega)]
      rw [List.getElem?_append_right le_rfl]
      simp
    rcases List.getElem?_eq_some.mp hval with ⟨hlt2, hgetEq⟩
    have hdrop := List.drop_eq_getElem_cons hlt2
    rw [hgetEq] at hdrop
    have hSnames : (modifyAt (s.pages ++ [(⟨getUniquePageName (s.pages.map Page.name)
        (preferredNameOf f), f.children⟩ : Page)]) ti
        (fun t => { t with children := eraseById t.children f.id })).map Page.name =
        s.pages.map Page.name ++ [getUniquePageName (s.pages.map Page.name)
          (preferredNameOf f)] := by
      rw [modifyAt_map]
      · rw [List.map_append]
        rfl
      · intro p
        rfl
    rw [hSnames] at hrec
    rw [hdrop]
    have htail1 := hrec.1
    have htail2 := hrec.2
    constructor
    · rw [List.map_cons]
      refine List.nodup_cons.mpr ⟨?_, htail1⟩
      intro hmem
      have := htail2 _ hmem
      exact this (List.mem_append_right _ (by simp))
    · rw [List.map_cons]
      intro nm hnm
      rcases List.mem_cons.mp hnm with rfl | hnm'
      · exact getUniquePageName_not_mem (s.pages.map Page.name) (preferredNameOf f)
      · intro hmem
        exact htail2 nm hnm' (List.mem_append_left _ hmem)

theorem eraseManyById_cons_ne (a : Node) (as : List Node) (ids : List Nat)
    (h : ∀ i ∈ ids, a.id ≠ i) : eraseManyById (a :: as) ids = a :: eraseManyById as ids := by
  induction ids generalizing as with
  | nil => rfl
  | cons i is ih =>
    show is.foldl eraseById (eraseById (a :: as) i) = a :: is.foldl eraseById (eraseById as i)
    rw [eraseById, if_neg (h i (by simp))]
    exact ih (eraseById as i) (fun j hj => h j (by simp [hj]))

theorem eraseManyById_filter (l : List Node) (h : (l.map Node.id).Nodup) :
    eraseManyById l ((l.filter isFrameNode).map Node.id) =
      l.filter (fun n => !isFrameNode n) := by
  induction l with
  | nil => rfl
  | cons a as ih =>
    have hnd : (as.map Node.id).Nodup := by
      rw [List.map_cons] at h
      exact (List.nodup_cons.mp h).2
    have hna : a.id ∉ as.map Node.id := by
      rw [List.map_cons] at h
      exact (List.nodup_cons.mp h).1
    cases hfa : isFrameNode a with
    | true =>
      rw [List.filter_cons_of_pos hfa, List.map_cons]
      show ((as.filter isFrameNode).map Node.id).foldl eraseById (eraseById (a :: as) a.id) = _
      rw [eraseById, if_pos rfl]
      rw [show ((as.filter isFrameNode).map Node.id).foldl eraseById as =
        eraseManyById as ((as.filter isFrameNode).map Node.id) from rfl]
      rw [ih hnd]
      rw [List.filter_cons_of_neg (by simp [hfa])]
    | false =>
      rw [List.filter_cons_of_neg (by simp [hfa])]
      rw [eraseManyById_cons_ne a as _ (by
        intro i hi he
        rcases List.mem_map.mp hi with ⟨n, hn, hid⟩
        refine hna (List.mem_map.mpr ⟨n, List.mem_of_mem_filter hn, ?_⟩)
        rw [hid, he])]
      rw [ih hnd]
      rw [List.filter_cons_of_pos (by simp [hfa])]

theorem unpackPages_main (s : FigmaState) (ti : Nat) (h : findTempIdx s.pages = some ti)
    (hne : ¬(((pageAt s ti).children.filter isFrameNode).length = 0)) :
    ∃ s1 : FigmaState, s1.pages = s.pages ∧ s1.notes = s.notes ∧ s1.nextId = s.nextId ∧
      unpackPages s =
        notify { (unpackLoop ti ((pageAt s ti).children.filter isFrameNode) s1 0).1 with
            current := (unpackLoop ti ((pageAt s ti).children.filter isFrameNode)
              s1 0).1.pages.length - 1 }
          (unpackedMsg (unpackLoop ti ((pageAt s ti).children.filter isFrameNode) s1 0).2) := by
  simp only [unpackPages, h]
  by_cases hc : s.current ≠ ti
  · refine ⟨{ s with current := ti }, rfl, rfl, rfl, ?_⟩
    rw [if_pos hc]
    have hpg : pageAt { pages := s.pages, current := ti, nextId := s.nextId, notes := s.notes } ti = pageAt s ti := rfl
    rw [hpg, if_neg hne]
  · refine ⟨s, rfl, rfl, rfl, ?_⟩
    rw [if_neg hc, if_neg hne]

/-! ### Helpers shared by the claim theorems -/

theorem getUniquePageName_shape (names : List String) (base : String) :
    getUniquePageName names base = trimOrUntitled base ∨
      ∃ k, getUniquePageName names base = importCandidate (trimOrUntitled base) k := by
  rw [getUniquePageName_eq]
  by_cases h : trimOrUntitled base ∈ names
  · right
    exact ⟨_, by rw [if_pos h]⟩
  · left
    rw [if_neg h]

theorem getOrCreateTempPage_of_found (s : FigmaState) (i : Nat)
    (h : findTempIdx s.pages = some i) : getOrCreateTempPage s = (s, i) := by
  unfold getOrCreateTempPage
  rw [h]

theorem pageAt_some (s : FigmaState) (i : Nat) (p : Page) (h : s.pages[i]? = some p) :
    pageAt s i = p := by
  rw [pageAt_eq, h]
  rfl

theorem filter_not_of_filter_nil (l : List Node) (h : l.filter isFrameNode = []) :
    l.filter (fun n => !isFrameNode n) = l := by
  rw [List.filter_eq_self]
  intro a ha
  have := List.filter_eq_nil_iff.mp h a ha
  simp [this]

theorem stack_mkFrames_all_frames (ps : List Page) (c : Nat) (sp y : Int) :
    ∀ x ∈ stackFrom sp (mkFrames ps c).1 y, isFrameNode x = true := by
  intro x hx
  have hmapty : (stackFrom sp (mkFrames ps c).1 y).map Node.ty =
      (mkFrames ps c).1.map Node.ty := stackFrom_map sp Node.ty setXY_ty _ _
  have hty : x.ty ∈ (mkFrames ps c).1.map Node.ty := by
    rw [← hmapty]
    exact List.mem_map_of_mem Node.ty hx
  rcases List.mem_map.mp hty with ⟨g, hg, hgty⟩
  have hgf := (mkFrames_ty_height ps c g hg).1
  rw [hgty] at hgf
  simp [isFrameNode, hgf]

theorem stack_mkFrames_filter (ps : List Page) (c : Nat) (sp y : Int) :
    (stackFrom sp (mkFrames ps c).1 y).filter isFrameNode = stackFrom sp (mkFrames ps c).1 y :=
  List.filter_eq_self.mpr (stack_mkFrames_all_frames ps c sp y)

theorem getOrCreateTempPage_length (s : FigmaState) :
    s.pages.length ≤ (getOrCreateTempPage s).1.pages.length := by
  unfold getOrCreateTempPage
  cases findTempIdx s.pages <;> simp

theorem packPages_pages_length (s : FigmaState)
    (hs : s.pages.filter (fun page => !isTempPage page) ≠ []) :
    (packPages s).pages.length = (getOrCreateTempPage s).1.pages.length := by
  rw [packPages_eq s hs]
  exact modifyAt_length _ _ _

theorem unpackPages_noFrames (s : FigmaState) (ti : Nat) (ht : findTempIdx s.pages = some ti)
    (hfe : ((pageAt s ti).children.filter isFrameNode).length = 0) :
    (unpackPages s).pages = s.pages ∧ (unpackPages s).nextId = s.nextId := by
  simp only [unpackPages, ht]
  by_cases hc : s.current ≠ ti
  · rw [if_pos hc]
    have hpg : pageAt { pages := s.pages, current := ti, nextId := s.nextId, notes := s.notes } ti = pageAt s ti := rfl
    rw [hpg, if_pos hfe]
    exact ⟨rfl, rfl⟩
  · rw [if_neg hc, if_pos hfe]
    exact ⟨rfl, rfl⟩

theorem unpackPages_spec (s : FigmaState) (ti : Nat)
    (ht : findTempIdx s.pages = some ti)
    (wf : ((pageAt s ti).children.map Node.id).Nodup) :
    (unpackPages s).pages.length =
      s.pages.length + ((pageAt s ti).children.filter isFrameNode).length ∧
    (∀ j f', ((pageAt s ti).children.filter isFrameNode)[j]? = some f' →
      ((unpackPages s).pages[s.pages.length + j]?).map Page.children = some f'.children) ∧
    ((unpackPages s).pages[ti]?).map Page.children =
      some ((pageAt s ti).children.filter (fun n => !isFrameNode n)) := by
  have hti : ti < s.pages.length := findTempIdx_lt _ _ ht
  have hpag : s.pages[ti]? = some (pageAt s ti) := by
    rcases findTempIdx_isTemp _ _ ht with ⟨p, hp, _⟩
    rw [hp, pageAt_some s ti p hp]
  by_cases hfe : ((pageAt s ti).children.filter isFrameNode).length = 0
  · have hnil : (pageAt s ti).children.filter isFrameNode = [] := List.length_eq_zero.mp hfe
    have hup := unpackPages_noFrames s ti ht hfe
    refine ⟨by rw [hup.1, hnil]; rfl, ?_, ?_⟩
    · intro j f' hj
      rw [hnil] at hj
      simp at hj
    · rw [hup.1, hpag, filter_not_of_filter_nil _ hnil]
      rfl
  · rcases unpackPages_main s ti ht hfe with ⟨s1, hs1p, hs1n, hs1i, heq⟩
    have hti1 : ti < s1.pages.length := by rw [hs1p]; exact hti
    refine ⟨?_, ?_, ?_⟩
    · rw [heq]
      show (unpackLoop ti ((pageAt s ti).children.filter isFrameNode) s1 0).1.pages.length = _
      rw [(unpackLoop_basic ti ((pageAt s ti).children.filter isFrameNode) s1 0).2.1, hs1p]
    · intro j f' hj
      have hcreated := unpackLoop_created ti ((pageAt s ti).children.filter isFrameNode)
        s1 0 j f' hj hti1
      rw [hs1p] at hcreated
      rw [heq]
      exact hcreated
    · have htemp := unpackLoop_temp ti ((pageAt s ti).children.filter isFrameNode) s1 0 hti1
      rw [hs1p, hpag] at htemp
      rw [heq]
      show ((unpackLoop ti ((pageAt s ti).children.filter isFrameNode)
        s1 0).1.pages[ti]?).map Page.children = _
      rw [htemp]
      show some (eraseManyById (pageAt s ti).children
        (((pageAt s ti).children.filter isFrameNode).map Node.id)) = _
      rw [eraseManyById_filter _ wf]

/-! ### Claim theorems -/

/-- C2: for every preferred name and every set of existing page names, the
resolver trims the preferred name, substitutes "Untitled" if the trimmed
result is empty, returns the result unchanged if it is not among the
existing names, and otherwise returns the candidate with the smallest
suffix counter at least 2 that does not collide; in particular, on
existing names {"A", "A (Imported 2)"} resolving "A" yields
"A (Imported 3)" and resolving "" yields "Untitled". -/
theorem C2_name_collision_resolution (names : List String) (base : String) :
    trimOrUntitled base = (if strTrim base = "" then "Untitled" else strTrim base) ∧
    (trimOrUntitled base ∉ names → getUniquePageName names base = trimOrUntitled base) ∧
    (trimOrUntitled base ∈ names → ∃ k, 2 ≤ k ∧
      getUniquePageName names base = importCandidate (trimOrUntitled base) k ∧
      importCandidate (trimOrUntitled base) k ∉ names ∧
      ∀ j, 2 ≤ j → j < k → importCandidate (trimOrUntitled base) j ∈ names) ∧
    getUniquePageName ["A", "A (Imported 2)"] "A" = "A (Imported 3)" ∧
    getUniquePageName ["A", "A (Imported 2)"] "" = "Untitled" :=
  ⟨rfl, getUniquePageName_of_not_mem names base, getUniquePageName_of_mem names base,
    by decide, by decide⟩

/-- Witness for C2 at concrete inputs: both the collision branch and the
free branch are exercised. -/
theorem C2_name_collision_resolution_witness :
    getUniquePageName ["A", "A (Imported 2)"] "A" = "A (Imported 3)" ∧
    getUniquePageName ["X"] "Y" = "Y" := by
  constructor
  · exact (C2_name_collision_resolution ["A", "A (Imported 2)"] "A").2.2.2.1
  · exact ((C2_name_collision_resolution ["X"] "Y").2.1 (by decide)).trans (by decide)

/-- C3: pack on a document whose only page is the staging page performs no
mutation of the document (pages, active page, identity allocator all
unchanged) and only reports the no-op through a notification; unpack on a
document with no staging page likewise performs no mutation and reports
the missing-staging-area condition. -/
theorem C3_noop_guards (s t : FigmaState) (p : Page) :
    (s.pages = [p] → isTempPage p = true →
      packPages s = notify s ("No pages found to pack.") ∧
      (packPages s).pages = s.pages ∧ (packPages s).current = s.current ∧
      (packPages s).nextId = s.nextId) ∧
    ((∀ q ∈ t.pages, isTempPage q = false) →
      unpackPages t =
        notify t ("Missing " ++ TEMP_PAGE_NAME ++ " page. Paste your packed frames first.") ∧
      (unpackPages t).pages = t.pages ∧ (unpackPages t).current = t.current ∧
      (unpackPages t).nextId = t.nextId) := by
  constructor
  · intro hp htemp
    have hfil : s.pages.filter (fun page => !isTempPage page) = [] := by
      rw [hp]
      simp [htemp]
    have hmain := packPages_noop s hfil
    exact ⟨hmain, by rw [hmain]; rfl, by rw [hmain]; rfl, by rw [hmain]; rfl⟩
  · intro hq
    have hnone : findTempIdx t.pages = none := (findTempIdx_none_iff t.pages).mpr hq
    have hmain := unpackPages_noStaging t hnone
    exact ⟨hmain, by rw [hmain]; rfl, by rw [hmain]; rfl, by rw [hmain]; rfl⟩

/-- Witness for C3: a document holding only the staging page is unchanged
by pack, and a document without a staging page is unchanged by unpack. -/
theorem C3_noop_guards_witness :
    (packPages ⟨[⟨"__TCC_TEMP__", []⟩], 0, 5, []⟩).pages = [⟨"__TCC_TEMP__", []⟩] ∧
    (unpackPages ⟨[⟨"A", []⟩], 0, 5, []⟩).pages = [⟨"A", []⟩] := by
  constructor
  · exact ((C3_noop_guards ⟨[⟨"__TCC_TEMP__", []⟩], 0, 5, []⟩ ⟨[⟨"A", []⟩], 0, 5, []⟩
      ⟨"__TCC_TEMP__", []⟩).1 rfl (by decide)).2.1
  · exact ((C3_noop_guards ⟨[⟨"__TCC_TEMP__", []⟩], 0, 5, []⟩ ⟨[⟨"A", []⟩], 0, 5, []⟩
      ⟨"__TCC_TEMP__", []⟩).2 (by decide)).2.1

/-- C4: pack leaves every non-staging source page unchanged: a page that
is not the staging page still sits at its index with the same name and the
same ordered children after a pack, because pack only appends clones to
the staging page. -/
theorem C4_pack_preserves_sources (s : FigmaState) (i : Nat) (p : Page)
    (hp : s.pages[i]? = some p) (hnt : isTempPage p = false) :
    (packPages s).pages[i]? = some p :=
  packPages_preserves s i p hp hnt

/-- Witness for C4: a concrete source page with content survives a pack
unchanged. -/
theorem C4_pack_preserves_sources_witness :
    (packPages ⟨[⟨"A", [.mk 7 "TEXT" "t" [] 1 2 3 []]⟩], 0, 100, []⟩).pages[0]? =
      some ⟨"A", [.mk 7 "TEXT" "t" [] 1 2 3 []]⟩ :=
  C4_pack_preserves_sources ⟨[⟨"A", [.mk 7 "TEXT" "t" [] 1 2 3 []]⟩], 0, 100, []⟩ 0
    ⟨"A", [.mk 7 "TEXT" "t" [] 1 2 3 []]⟩ (by rfl) (by decide)

theorem pageAt_children_of_map (s : FigmaState) (i : Nat) (l : List Node)
    (h : (s.pages[i]?).map Page.children = some l) : (pageAt s i).children = l := by
  cases hq : s.pages[i]? with
  | none =>
    rw [hq] at h
    simp at h
  | some q =>
    rw [hq] at h
    simp at h
    rw [pageAt_some s i q hq, h]

/-- C7: after a pack that created k containers, the staging page's
children form a single vertical column: as many containers as source
pages, every container at x = 0, the first at y = 0, and each subsequent
container's y equal to the previous container's y plus that container's
height plus the fixed spacing 200. -/
theorem C7_vertical_column (s : FigmaState)
    (hs : s.pages.filter (fun page => !isTempPage page) ≠ []) :
    ∃ (ti : Nat) (l : List Node), findTempIdx (packPages s).pages = some ti ∧
      ((packPages s).pages[ti]?).map Page.children = some l ∧
      l.length = (s.pages.filter (fun page => !isTempPage page)).length ∧
      (∀ (i : Nat) (fi : Node), l[i]? = some fi → fi.x = 0) ∧
      (∀ (f0 : Node), l[0]? = some f0 → f0.y = 0) ∧
      (∀ (i : Nat) (fi fj : Node), l[i]? = some fi → l[i + 1]? = some fj →
        fj.y = fi.y + fi.height + 200) := by
  refine ⟨(getOrCreateTempPage s).2,
    stackFramesVertically
      (mkFrames (s.pages.filter (fun page => !isTempPage page)) s.nextId).1 200,
    packPages_findIdx s hs, packPages_stagingChildren s hs, ?_, ?_, ?_, ?_⟩
  · show (stackFrom 200 _ 0).length = _
    rw [stackFrom_length, mkFrames_length]
  · intro i fi hfi
    have hfi' : (stackFrom 200
        (mkFrames (s.pages.filter (fun page => !isTempPage page)) s.nextId).1 0)[i]? =
        some fi := hfi
    exact stackFrom_x 200 _ 0 i fi hfi'
  · intro f0 h0
    have h0' : (stackFrom 200
        (mkFrames (s.pages.filter (fun page => !isTempPage page)) s.nextId).1 0)[0]? =
        some f0 := h0
    cases hmk : (mkFrames (s.pages.filter (fun page => !isTempPage page)) s.nextId).1 with
    | nil =>
      rw [hmk] at h0'
      simp [stackFrom] at h0'
    | cons g gs =>
      rw [hmk, stackFrom_head] at h0'
      have hf0 : f0 = g.setXY 0 0 := by simpa using h0'.symm
      rw [hf0, setXY_y]
  · intro i fi fj hfi hfj
    have hfi' : (stackFrom 200
        (mkFrames (s.pages.filter (fun page => !isTempPage page)) s.nextId).1 0)[i]? =
        some fi := hfi
    have hfj' : (stackFrom 200
        (mkFrames (s.pages.filter (fun page => !isTempPage page)) s.nextId).1 0)[i + 1]? =
        some fj := hfj
    exact stackFrom_adj 200 _ 0 i fi fj hfi' hfj'

/-- Witness for C7: packing a concrete two-page document stacks the two
containers in a column (the column facts hold for that concrete run). -/
theorem C7_vertical_column_witness :
    ∃ (ti : Nat) (l : List Node),
      findTempIdx (packPages ⟨[⟨"A", []⟩, ⟨"B", []⟩], 0, 0, []⟩).pages = some ti ∧
      ((packPages ⟨[⟨"A", []⟩, ⟨"B", []⟩], 0, 0, []⟩).pages[ti]?).map Page.children = some l ∧
      l.length = ((⟨[⟨"A", []⟩, ⟨"B", []⟩], 0, 0, []⟩ : FigmaState).pages.filter
        (fun page => !isTempPage page)).length ∧
      (∀ (i : Nat) (fi : Node), l[i]? = some fi → fi.x = 0) ∧
      (∀ (f0 : Node), l[0]? = some f0 → f0.y = 0) ∧
      (∀ (i : Nat) (fi fj : Node), l[i]? = some fi → l[i + 1]? = some fj →
        fj.y = fi.y + fi.height + 200) :=
  C7_vertical_column ⟨[⟨"A", []⟩, ⟨"B", []⟩], 0, 0, []⟩
    (by intro h; exact absurd (congrArg List.length h) (by decide))

/-- C6: pack is idempotent in effect: packing twice in a row leaves the
staging page with the same containers (same count, names, metadata and
structural content; node identities are erased because packing clones) as
packing once. -/
theorem C6_idempotent_pack (s : FigmaState) :
    stagingContent (packPages (packPages s)) = stagingContent (packPages s) := by
  by_cases hf : s.pages.filter (fun page => !isTempPage page) = []
  · rw [packPages_noop s hf]
    have hf2 : (notify s ("No pages found to pack.")).pages.filter
        (fun page => !isTempPage page) = [] := hf
    rw [packPages_noop _ hf2]
    rfl
  · have hfilter1 := packPages_filter s
    have hf2 : (packPages s).pages.filter (fun page => !isTempPage page) ≠ [] := by
      rw [hfilter1]
      exact hf
    have hidx1 := packPages_findIdx s hf
    have hch1 := packPages_stagingChildren s hf
    have hg2 := getOrCreateTempPage_of_found (packPages s) _ hidx1
    have hg2b : (getOrCreateTempPage (packPages s)).2 = (getOrCreateTempPage s).2 := by
      rw [hg2]
    have hg2a : (getOrCreateTempPage (packPages s)).1 = packPages s := by
      rw [hg2]
    have hidx2 := packPages_findIdx (packPages s) hf2
    have hch2 := packPages_stagingChildren (packPages s) hf2
    rw [hg2b] at hidx2 hch2
    unfold stagingContent
    rw [hidx1, hidx2]
    simp only [Option.map_some']
    rw [pageAt_children_of_map _ _ _ hch1, pageAt_children_of_map _ _ _ hch2]
    rw [stripNodes_eq_map, stripNodes_eq_map]
    apply congrArg some
    show (stackFrom 200 _ 0).map stripNode = (stackFrom 200 _ 0).map stripNode
    rw [stackFrom_strip, stackFrom_strip, mkFrames_strip, mkFrames_strip, hfilter1]

/-- C5: for every top-level container the unpack run processes, its
top-level children are moved — as the very same nodes, in the same
order — onto the page created for it, and the container is removed from
the staging page: afterwards the j-th created page holds exactly the j-th
container's former children, and the staging page retains exactly its
non-container children. -/
theorem C5_unpack_reparents (s : FigmaState) (ti : Nat)
    (ht : findTempIdx s.pages = some ti)
    (wf : ((pageAt s ti).children.map Node.id).Nodup) :
    (unpackPages s).pages.length =
      s.pages.length + ((pageAt s ti).children.filter isFrameNode).length ∧
    (∀ (j : Nat) (f' : Node), ((pageAt s ti).children.filter isFrameNode)[j]? = some f' →
      ((unpackPages s).pages[s.pages.length + j]?).map Page.children = some f'.children) ∧
    ((unpackPages s).pages[ti]?).map Page.children =
      some ((pageAt s ti).children.filter (fun n => !isFrameNode n)) :=
  unpackPages_spec s ti ht wf

/-- Witness for C5 on a concrete staging page holding two frames and a
text node: two pages are created holding exactly the frames' children
(same node identities), and the staging page keeps the text node. -/
theorem C5_unpack_reparents_witness :
    (unpackPages ⟨[⟨"__TCC_TEMP__", [.mk 1 "FRAME" "A" [] 0 0 100 [.mk 2 "TEXT" "t" [] 0 0 9 []],
      .mk 3 "TEXT" "loose" [] 0 0 9 [], .mk 4 "FRAME" "B" [] 0 300 100 []]⟩],
      0, 10, []⟩).pages.length = 1 + 2 ∧
    ((unpackPages ⟨[⟨"__TCC_TEMP__", [.mk 1 "FRAME" "A" [] 0 0 100 [.mk 2 "TEXT" "t" [] 0 0 9 []],
      .mk 3 "TEXT" "loose" [] 0 0 9 [], .mk 4 "FRAME" "B" [] 0 300 100 []]⟩],
      0, 10, []⟩).pages[1]?).map Page.children = some [.mk 2 "TEXT" "t" [] 0 0 9 []] ∧
    ((unpackPages ⟨[⟨"__TCC_TEMP__", [.mk 1 "FRAME" "A" [] 0 0 100 [.mk 2 "TEXT" "t" [] 0 0 9 []],
      .mk 3 "TEXT" "loose" [] 0 0 9 [], .mk 4 "FRAME" "B" [] 0 300 100 []]⟩],
      0, 10, []⟩).pages[0]?).map Page.children = some [.mk 3 "TEXT" "loose" [] 0 0 9 []] := by
  have h := C5_unpack_reparents ⟨[⟨"__TCC_TEMP__",
    [.mk 1 "FRAME" "A" [] 0 0 100 [.mk 2 "TEXT" "t" [] 0 0 9 []],
     .mk 3 "TEXT" "loose" [] 0 0 9 [], .mk 4 "FRAME" "B" [] 0 300 100 []]⟩], 0, 10, []⟩
    0 (by rfl) (by decide)
  refine ⟨h.1, ?_, ?_⟩
  · have := h.2.1 0 (.mk 1 "FRAME" "A" [] 0 0 100 [.mk 2 "TEXT" "t" [] 0 0 9 []]) (by rfl)
    exact this
  · exact h.2.2

/-- C8: unpack processes only the container-type top-level children of the
staging page and skips every other node type: when the staging page's
container children are exactly one frame, exactly one page is created, and
every non-container top-level node stays on the staging page untouched. -/
theorem C8_nonframe_nodes_skipped (s : FigmaState) (ti : Nat) (u f : Node)
    (ht : findTempIdx s.pages = some ti)
    (wf : ((pageAt s ti).children.map Node.id).Nodup)
    (hfil : (pageAt s ti).children.filter isFrameNode = [f])
    (hu : u ∈ (pageAt s ti).children) (hnu : isFrameNode u = false) :
    (unpackPages s).pages.length = s.pages.length + 1 ∧
    u ∈ (pageAt (unpackPages s) ti).children := by
  have h := unpackPages_spec s ti ht wf
  constructor
  · rw [h.1, hfil]
    rfl
  · have hch := pageAt_children_of_map (unpackPages s) ti _ h.2.2
    rw [hch]
    exact List.mem_filter.mpr ⟨hu, by simp [hnu]⟩

/-- Witness for C8: a staging page with one frame and one text node
unpacks into exactly one new page, and the text node remains on the
staging page. -/
theorem C8_nonframe_nodes_skipped_witness :
    (unpackPages ⟨[⟨"__TCC_TEMP__", [.mk 1 "FRAME" "A" [] 0 0 100 [],
      .mk 3 "TEXT" "loose" [] 0 0 9 []]⟩], 0, 10, []⟩).pages.length = 1 + 1 ∧
    Node.mk 3 "TEXT" "loose" [] 0 0 9 [] ∈
      (pageAt (unpackPages ⟨[⟨"__TCC_TEMP__", [.mk 1 "FRAME" "A" [] 0 0 100 [],
        .mk 3 "TEXT" "loose" [] 0 0 9 []]⟩], 0, 10, []⟩) 0).children :=
  C8_nonframe_nodes_skipped ⟨[⟨"__TCC_TEMP__", [.mk 1 "FRAME" "A" [] 0 0 100 [],
      .mk 3 "TEXT" "loose" [] 0 0 9 []]⟩], 0, 10, []⟩ 0
    (.mk 3 "TEXT" "loose" [] 0 0 9 []) (.mk 1 "FRAME" "A" [] 0 0 100 [])
    (by rfl) (by decide) (by rfl)
    (by exact List.mem_cons_of_mem _ (List.mem_cons_self _ _)) (by rfl)

/-- Names created by one unpack run are pairwise distinct and collide
with no page name present before the run. -/
theorem unpackPages_freshNames (s : FigmaState) :
    ((((unpackPages s).pages.drop s.pages.length).map Page.name).Nodup ∧
    ∀ nm ∈ ((unpackPages s).pages.drop s.pages.length).map Page.name,
      nm ∉ s.pages.map Page.name) := by
  cases ht : findTempIdx s.pages with
  | none =>
    rw [unpackPages_noStaging s ht]
    constructor
    · show ((s.pages.drop s.pages.length).map Page.name).Nodup
      rw [List.drop_length]
      exact List.nodup_nil
    · show ∀ nm ∈ (s.pages.drop s.pages.length).map Page.name, nm ∉ s.pages.map Page.name
      rw [List.drop_length]
      intro nm h
      simp at h
  | some ti =>
    by_cases hfe : ((pageAt s ti).children.filter isFrameNode).length = 0
    · have hup := unpackPages_noFrames s ti ht hfe
      rw [hup.1]
      constructor
      · rw [List.drop_length]
        exact List.nodup_nil
      · rw [List.drop_length]
        intro nm h
        simp at h
    · rcases unpackPages_main s ti ht hfe with ⟨s1, hs1p, _, _, heq⟩
      have hti1 : ti < s1.pages.length := by
        rw [hs1p]
        exact findTempIdx_lt _ _ ht
      have hnames := unpackLoop_names ti ((pageAt s ti).children.filter isFrameNode) s1 0 hti1
      rw [hs1p] at hnames
      rw [heq]
      exact hnames

/-- C9: every page created during one unpack run has a name different
from every page name present before the run and from every other page
created in the same run: the resolver is applied against the current page
names at each loop iteration, so the created pages' names are pairwise
distinct and collide with no pre-existing page. -/
theorem C9_created_names_unique (s : FigmaState) :
    ((((unpackPages s).pages.drop s.pages.length).map Page.name).Nodup ∧
    ∀ nm ∈ ((unpackPages s).pages.drop s.pages.length).map Page.name,
      nm ∉ s.pages.map Page.name) :=
  unpackPages_freshNames s

/-- C10: every page created by unpack carries a trimmed name: the
resolver trims the preferred name before any collision check, so the
created page's name is the trimmed preferred name (or "Untitled" if
trimming leaves nothing), possibly suffixed, and never equals a
whitespace-bearing original. -/
theorem C10_created_names_trimmed (s : FigmaState) (ti : Nat) (j : Nat) (f' : Node)
    (ht : findTempIdx s.pages = some ti)
    (hj : ((pageAt s ti).children.filter isFrameNode)[j]? = some f') :
    ∃ nm, ((unpackPages s).pages[s.pages.length + j]?).map Page.name = some nm ∧
      strTrim nm = nm ∧
      (nm = trimOrUntitled (preferredNameOf f') ∨
        ∃ k, nm = importCandidate (trimOrUntitled (preferredNameOf f')) k) ∧
      (strTrim (preferredNameOf f') ≠ preferredNameOf f' → nm ≠ preferredNameOf f') := by
  have hfe : ¬(((pageAt s ti).children.filter isFrameNode).length = 0) := by
    intro h0
    rw [List.length_eq_zero.mp h0] at hj
    simp at hj
  rcases unpackPages_main s ti ht hfe with ⟨s1, hs1p, _, _, heq⟩
  have hti1 : ti < s1.pages.length := by
    rw [hs1p]
    exact findTempIdx_lt _ _ ht
  rcases unpackLoop_nameOf ti ((pageAt s ti).children.filter isFrameNode) s1 0 j f' hj hti1
    with ⟨names, hnm⟩
  rw [hs1p] at hnm
  refine ⟨getUniquePageName names (preferredNameOf f'), ?_,
    getUniquePageName_trimmed names _, getUniquePageName_shape names _, ?_⟩
  · rw [heq]
    exact hnm
  · intro hne heq2
    exact hne (heq2 ▸ getUniquePageName_trimmed names (preferredNameOf f'))

/-- Witness for C10: a frame whose recorded page name has surrounding
whitespace produces a page carrying the trimmed name. -/
theorem C10_created_names_trimmed_witness :
    ∃ nm, ((unpackPages ⟨[⟨"__TCC_TEMP__",
      [.mk 1 "FRAME" "  My Page  " [("tcc:pageName", "  My Page  ")] 0 0 100 []]⟩],
      0, 10, []⟩).pages[1 + 0]?).map Page.name = some nm ∧
      strTrim nm = nm ∧
      (nm = trimOrUntitled (preferredNameOf
          (.mk 1 "FRAME" "  My Page  " [("tcc:pageName", "  My Page  ")] 0 0 100 [])) ∨
        ∃ k, nm = importCandidate (trimOrUntitled (preferredNameOf
          (.mk 1 "FRAME" "  My Page  " [("tcc:pageName", "  My Page  ")] 0 0 100 []))) k) ∧
      (strTrim (preferredNameOf
          (.mk 1 "FRAME" "  My Page  " [("tcc:pageName", "  My Page  ")] 0 0 100 [])) ≠
        preferredNameOf
          (.mk 1 "FRAME" "  My Page  " [("tcc:pageName", "  My Page  ")] 0 0 100 []) →
        nm ≠ preferredNameOf
          (.mk 1 "FRAME" "  My Page  " [("tcc:pageName", "  My Page  ")] 0 0 100 [])) :=
  C10_created_names_trimmed ⟨[⟨"__TCC_TEMP__",
      [.mk 1 "FRAME" "  My Page  " [("tcc:pageName", "  My Page  ")] 0 0 100 []]⟩],
      0, 10, []⟩ 0 0
    (.mk 1 "FRAME" "  My Page  " [("tcc:pageName", "  My Page  ")] 0 0 100 [])
    (by rfl) (by rfl)

theorem unpackPages_stable (s : FigmaState) (ti : Nat) (ht : findTempIdx s.pages = some ti)
    (i : Nat) (hi : i < s.pages.length) (hne : i ≠ ti) :
    (unpackPages s).pages[i]? = s.pages[i]? := by
  by_cases hfe : ((pageAt s ti).children.filter isFrameNode).length = 0
  · rw [(unpackPages_noFrames s ti ht hfe).1]
  · rcases unpackPages_main s ti ht hfe with ⟨s1, hs1p, _, _, heq⟩
    rw [heq]
    have hst := unpackLoop_stable ti ((pageAt s ti).children.filter isFrameNode) s1 0 i hne
      (by rw [hs1p]; exact hi)
    rw [hs1p] at hst
    exact hst

theorem unpackPages_length (s : FigmaState) (ti : Nat)
    (ht : findTempIdx s.pages = some ti) :
    (unpackPages s).pages.length =
      s.pages.length + ((pageAt s ti).children.filter isFrameNode).length := by
  by_cases hfe : ((pageAt s ti).children.filter isFrameNode).length = 0
  · rw [(unpackPages_noFrames s ti ht hfe).1, hfe]
    rfl
  · rcases unpackPages_main s ti ht hfe with ⟨s1, hs1p, _, _, heq⟩
    rw [heq]
    show (unpackLoop ti ((pageAt s ti).children.filter isFrameNode) s1 0).1.pages.length = _
    rw [(unpackLoop_basic ti ((pageAt s ti).children.filter isFrameNode) s1 0).2.1, hs1p]

theorem unpackPages_created (s : FigmaState) (ti : Nat)
    (ht : findTempIdx s.pages = some ti) (j : Nat) (f' : Node)
    (hj : ((pageAt s ti).children.filter isFrameNode)[j]? = some f') :
    ((unpackPages s).pages[s.pages.length + j]?).map Page.children = some f'.children := by
  have hfe : ¬(((pageAt s ti).children.filter isFrameNode).length = 0) := by
    intro h0
    rw [List.length_eq_zero.mp h0] at hj
    simp at hj
  rcases unpackPages_main s ti ht hfe with ⟨s1, hs1p, _, _, heq⟩
  have hcreated := unpackLoop_created ti ((pageAt s ti).children.filter isFrameNode) s1 0 j f' hj
    (by rw [hs1p]; exact findTempIdx_lt _ _ ht)
  rw [hs1p] at hcreated
  rw [heq]
  exact hcreated

/-- C1 as stated fails on the code: packing does not remove the source
pages, so running unpack immediately after pack on a one-page document
["A"] leaves both the original page and a freshly created page named
"A (Imported 2)"; the multiset of (name, structural content) pairs over
non-staging pages doubles instead of being preserved. -/
theorem C1_roundtrip_counterexample :
    ¬ (nonStagingPairs (unpackPages (packPages ⟨[⟨"A", []⟩], 0, 0, []⟩))).Perm
      (nonStagingPairs ⟨[⟨"A", []⟩], 0, 0, []⟩) := by
  intro hperm
  have hlen := hperm.length_eq
  have h2 : (nonStagingPairs (unpackPages (packPages ⟨[⟨"A", []⟩], 0, 0, []⟩))).length = 2 := by
    rfl
  have h1 : (nonStagingPairs (⟨[⟨"A", []⟩], 0, 0, []⟩ : FigmaState)).length = 1 := by rfl
  rw [h2, h1] at hlen
  exact absurd hlen (by decide)

/-- C1 amended: running unpack immediately after pack on a document with
source pages P1..Pn (n ≥ 1) leaves every original non-staging page
unchanged in place and appends exactly n new pages, in order, whose
top-level content is structurally equivalent to P1..Pn's (node identities
differ because pack clones); the new pages carry freshly resolved names
that collide with no page present after the pack (hence are suffixed
duplicates of the originals' names), so the original multiset is extended,
not reproduced. -/
theorem C1_roundtrip_amended (s : FigmaState)
    (hs : s.pages.filter (fun page => !isTempPage page) ≠ []) :
    (∀ (i : Nat) (p : Page), s.pages[i]? = some p → isTempPage p = false →
      (unpackPages (packPages s)).pages[i]? = some p) ∧
    (unpackPages (packPages s)).pages.length =
      (packPages s).pages.length + (s.pages.filter (fun page => !isTempPage page)).length ∧
    (∀ (j : Nat) (pg : Page), (s.pages.filter (fun page => !isTempPage page))[j]? = some pg →
      ((unpackPages (packPages s)).pages[(packPages s).pages.length + j]?).map
        (fun q => stripNodes q.children) = some (stripNodes pg.children)) ∧
    (∀ nm ∈ ((unpackPages (packPages s)).pages.drop
        (packPages s).pages.length).map Page.name,
      nm ∉ (packPages s).pages.map Page.name) := by
  have hidx := packPages_findIdx s hs
  have hch := packPages_stagingChildren s hs
  have hchEq := pageAt_children_of_map _ _ _ hch
  have hfilterframes : (pageAt (packPages s) (getOrCreateTempPage s).2).children.filter
      isFrameNode = (pageAt (packPages s) (getOrCreateTempPage s).2).children := by
    rw [hchEq]
    exact stack_mkFrames_filter _ _ 200 0
  have hflen : (pageAt (packPages s) (getOrCreateTempPage s).2).children.length =
      (s.pages.filter (fun page => !isTempPage page)).length := by
    rw [hchEq]
    show (stackFrom 200 _ 0).length = _
    rw [stackFrom_length, mkFrames_length]
  refine ⟨?_, ?_, ?_, (unpackPages_freshNames (packPages s)).2⟩
  · intro i p hp hnt
    have hp' := packPages_preserves s i p hp hnt
    have hi' : i < (packPages s).pages.length := (List.getElem?_eq_some.mp hp').1
    have hne : i ≠ (getOrCreateTempPage s).2 := by
      intro he
      rcases findTempIdx_isTemp _ _ hidx with ⟨q, hq, hqt⟩
      rw [← he, hp'] at hq
      have hpq : p = q := by simpa using hq
      rw [← hpq] at hqt
      simp [hnt] at hqt
    rw [unpackPages_stable (packPages s) (getOrCreateTempPage s).2 hidx i hi' hne]
    exact hp'
  · rw [unpackPages_length (packPages s) (getOrCreateTempPage s).2 hidx, hfilterframes, hflen]
  · intro j pg hj
    have hj' : j < (s.pages.filter (fun page => !isTempPage page)).length :=
      (List.getElem?_eq_some.mp hj).1
    have hlt : j < ((pageAt (packPages s) (getOrCreateTempPage s).2).children.filter
        isFrameNode).length := by
      rw [hfilterframes, hflen]
      exact hj'
    obtain ⟨f', hf'⟩ : ∃ f', ((pageAt (packPages s) (getOrCreateTempPage s).2).children.filter
        isFrameNode)[j]? = some f' := ⟨_, List.getElem?_eq_getElem hlt⟩
    have hcr := unpackPages_created (packPages s) (getOrCreateTempPage s).2 hidx j f' hf'
    rw [hfilterframes, hchEq] at hf'
    have hf'' : (stackFrom 200 (mkFrames (s.pages.filter (fun page => !isTempPage page))
      s.nextId).1 0)[j]? = some f' := hf'
    have hmap : (stackFrom 200 (mkFrames (s.pages.filter (fun page => !isTempPage page))
        s.nextId).1 0).map (fun n => stripNodes n.children) =
        (s.pages.filter (fun page => !isTempPage page)).map
          (fun p => stripNodes p.children) := by
      rw [stackFrom_map 200 (fun n => stripNodes n.children)
        (fun n a b => by show stripNodes (n.setXY a b).children = stripNodes n.children; rw [setXY_children])]
      exact mkFrames_childrenStrip _ _
    have hidxlevel := congrArg (fun l => l[j]?) hmap
    simp only [List.getElem?_map] at hidxlevel
    rw [hf'', hj] at hidxlevel
    have hstrip : stripNodes f'.children = stripNodes pg.children := by
      simpa using hidxlevel
    cases hx : (unpackPages (packPages s)).pages[(packPages s).pages.length + j]? with
    | none =>
      rw [hx] at hcr
      simp at hcr
    | some q =>
      rw [hx] at hcr
      simp only [Option.map_some'] at hcr ⊢
      have hqc : q.children = f'.children := by simpa using hcr
      rw [hqc, hstrip]

/-- Witness for the amended C1 on the one-page document ["A"]: the
original survives and the round trip appends a structurally equivalent
copy with a fresh name. -/
theorem C1_roundtrip_amended_witness :
    (∀ (i : Nat) (p : Page),
      (⟨[⟨"A", []⟩], 0, 0, []⟩ : FigmaState).pages[i]? = some p → isTempPage p = false →
      (unpackPages (packPages ⟨[⟨"A", []⟩], 0, 0, []⟩)).pages[i]? = some p) ∧
    (unpackPages (packPages ⟨[⟨"A", []⟩], 0, 0, []⟩)).pages.length =
      (packPages ⟨[⟨"A", []⟩], 0, 0, []⟩).pages.length +
        ((⟨[⟨"A", []⟩], 0, 0, []⟩ : FigmaState).pages.filter
          (fun page => !isTempPage page)).length ∧
    (∀ (j : Nat) (pg : Page),
      ((⟨[⟨"A", []⟩], 0, 0, []⟩ : FigmaState).pages.filter
        (fun page => !isTempPage page))[j]? = some pg →
      ((unpackPages (packPages ⟨[⟨"A", []⟩], 0, 0, []⟩)).pages[
          (packPages ⟨[⟨"A", []⟩], 0, 0, []⟩).pages.length + j]?).map
        (fun q => stripNodes q.children) = some (stripNodes pg.children)) ∧
    (∀ nm ∈ ((unpackPages (packPages ⟨[⟨"A", []⟩], 0, 0, []⟩)).pages.drop
        (packPages ⟨[⟨"A", []⟩], 0, 0, []⟩).pages.length).map Page.name,
      nm ∉ (packPages ⟨[⟨"A", []⟩], 0, 0, []⟩).pages.map Page.name) :=
  C1_roundtrip_amended ⟨[⟨"A", []⟩], 0, 0, []⟩
    (by intro h; exact absurd (congrArg List.length h) (by decide))
